import Mathlib

/-!
Verification of the catsolle core engine against its specification.

Each definition in this file is a shallow embedding of a function of the
repository (crates/catsolle-core, catsolle-ssh, catsolle-keychain,
catsolle-config), translated from the Rust source.  External library
primitives that the code calls (AES-256-GCM, Argon2id, HMAC-SHA1, SHA-256,
the OS keyring, tokio channels, the wall clock) are modelled as explicit
parameters or idealised computable functions; everything the repository
itself computes is translated statement by statement.
-/

namespace Catsolle

/-- Byte strings are lists of naturals (each < 256 in the real program). -/
abbrev Bytes := List Nat

/-! ## Known hosts: glob matching
Embedding of `crates/catsolle-ssh/src/known_hosts.rs`.

`glob_match` (known_hosts.rs lines 117-146) is an iterative wildcard
matcher over the byte slices of pattern and text with greedy `*`
backtracking.  We model the byte slices by `List Char` (all patterns and
hosts involved are ASCII, where bytes and chars coincide) and the `while`
loop by a fuel-indexed recursion; the fuel passed by `glob_match` exceeds
the loop's iteration bound `(|text|+2)*(|pattern|+2)`. -/

/-- The trailing loop of `glob_match`: skip `'*'`s at the end of the
pattern and require that the pattern is then exhausted. -/
def allStars : List Char → Bool
  | [] => true
  | c :: rest => c = '*' && allStars rest

/-- The main `while t < bytes_t.len()` loop of `glob_match`, with state
`(p, t, match_idx, star_idx)` exactly as in the source. -/
def globLoop (bp bt : List Char) : Nat → Nat → Nat → Nat → Option Nat → Bool
  | 0, _, _, _, _ => false
  | fuel + 1, p, t, matchIdx, starIdx =>
    if h : t < bt.length then
      match bp.get? p with
      | some pc =>
        if pc = '?' ∨ pc = bt.get ⟨t, h⟩ then
          globLoop bp bt fuel (p + 1) (t + 1) matchIdx starIdx
        else if pc = '*' then
          globLoop bp bt fuel (p + 1) t t (some p)
        else
          match starIdx with
          | some si => globLoop bp bt fuel (si + 1) (matchIdx + 1) (matchIdx + 1) starIdx
          | none => false
      | none =>
        match starIdx with
        | some si => globLoop bp bt fuel (si + 1) (matchIdx + 1) (matchIdx + 1) starIdx
        | none => false
    else
      allStars (bp.drop p)

/-- `glob_match(pattern, text)` from known_hosts.rs lines 117-146. -/
def glob_match (pattern text : String) : Bool :=
  globLoop pattern.toList text.toList
    ((text.toList.length + 2) * (pattern.toList.length + 2)) 0 0 0 none

/-- The accumulator loop of `match_plain_patterns` (known_hosts.rs lines
99-115): a matching `!`-negated pattern rejects immediately, otherwise any
positive glob match sets `matched`. -/
def mppLoop (host : String) : List String → Bool → Bool
  | [], matched => matched
  | pat :: rest, matched =>
    let stripped : Bool × String :=
      match pat.toList with
      | '!' :: core => (true, String.mk core)
      | _ => (false, pat)
    if glob_match stripped.2 host then
      if stripped.1 then false else mppLoop host rest true
    else
      mppLoop host rest matched

/-- `match_plain_patterns(patterns, host)` from known_hosts.rs lines 99-115. -/
def match_plain_patterns (patterns : List String) (host : String) : Bool :=
  mppLoop host patterns false

/-! ## Known hosts: entries, `check` and `add`
Public keys are modelled opaquely by naturals (the code only compares them
for equality and serialises them).  The `known_hosts` file and the loaded
`entries` vector stay in sync (`add` appends one line and reloads), so the
store is modelled by its entry list.  `HMAC-SHA1` is an external primitive
and enters as a function parameter `hmac`. -/

/-- Marker of a known-hosts entry (`@cert-authority` / `@revoked`). -/
inductive KHMarker
  | certAuthority
  | revoked
deriving DecidableEq, Repr

/-- `HostPatterns`: plain/glob pattern list or hashed-hostname pair. -/
inductive HostPatterns
  | patterns (list : List String)
  | hashedName (salt : Bytes) (hash : Bytes)
deriving DecidableEq, Repr

/-- One known-hosts entry: optional marker, host patterns, public key. -/
structure KHEntry where
  marker : Option KHMarker
  patterns : HostPatterns
  key : Nat
deriving DecidableEq, Repr

/-- Result of a known-hosts lookup (known_hosts.rs lines 16-22). -/
inductive KnownHostResult
  | Match
  | Mismatch
  | NotFound
  | Revoked
deriving DecidableEq, Repr

/-- `host_to_pattern(host, port)` (known_hosts.rs lines 76-82): bracketed
form for a non-default port. -/
def host_to_pattern (host : String) (port : Nat) : String :=
  if port = 22 then host else "[" ++ host ++ "]:" ++ toString port

/-- `host_matches` (known_hosts.rs lines 84-97); `hmac salt target` models
`HMAC-SHA1(salt, target)`. -/
def host_matches (hmac : Bytes → String → Bytes) (patterns : HostPatterns)
    (hostForMatch : String) (host : String) (port : Nat) : Bool :=
  match patterns with
  | .patterns list => match_plain_patterns list hostForMatch
  | .hashedName salt hash =>
    let target := if port = 22 then host else "[" ++ host ++ "]:" ++ toString port
    hash = hmac salt target

/-- The entry loop of `KnownHosts::check` (known_hosts.rs lines 34-52). -/
def checkLoop (hmac : Bytes → String → Bytes) (hostForMatch : String)
    (host : String) (port : Nat) (key : Nat) : List KHEntry → KnownHostResult
  | [] => .NotFound
  | entry :: rest =>
    if entry.marker = some .revoked ∧
        host_matches hmac entry.patterns hostForMatch host port then
      .Revoked
    else if host_matches hmac entry.patterns hostForMatch host port then
      if entry.key = key then .Match else .Mismatch
    else
      checkLoop hmac hostForMatch host port key rest

/-- `KnownHosts::check(host, port, key)` (known_hosts.rs lines 34-52). -/
def KnownHosts.check (hmac : Bytes → String → Bytes) (entries : List KHEntry)
    (host : String) (port : Nat) (key : Nat) : KnownHostResult :=
  checkLoop hmac (host_to_pattern host port) host port key entries

/-- `KnownHosts::add(host, port, key, _comment)` (known_hosts.rs lines
54-73): append a single plain-pattern line for `target_pattern` with the
key, then reload. -/
def KnownHosts.add (entries : List KHEntry) (host : String) (port : Nat)
    (key : Nat) : List KHEntry :=
  entries ++ [{ marker := none, patterns := .patterns [host_to_pattern host port],
                key := key }]

/-! ## Host-key policy: `ClientHandler::check_server_key`
Embedding of `crates/catsolle-ssh/src/client.rs` lines 251-287.  The
result is the accept/refuse decision together with the known-hosts store
after the call (`AcceptNew` persists a new entry on `NotFound`). -/

/-- `HostKeyPolicy` from catsolle-ssh/src/config.rs. -/
inductive HostKeyPolicy
  | insecureAcceptAny
  | strict
  | acceptNew
deriving DecidableEq, Repr

/-- `ClientHandler::check_server_key` (client.rs lines 251-287). `kh` is
`None` when no known-hosts path is configured. -/
def check_server_key (hmac : Bytes → String → Bytes) (policy : HostKeyPolicy)
    (kh : Option (List KHEntry)) (host : String) (port : Nat) (key : Nat) :
    Bool × Option (List KHEntry) :=
  match policy with
  | .insecureAcceptAny => (true, kh)
  | .strict | .acceptNew =>
    match kh with
    | none => (false, none)
    | some entries =>
      match KnownHosts.check hmac entries host port key with
      | .Match => (true, some entries)
      | .NotFound =>
        if policy = .acceptNew then
          (true, some (KnownHosts.add entries host port key))
        else
          (false, some entries)
      | .Mismatch => (false, some entries)
      | .Revoked => (false, some entries)

/-! ## Credential vault
Embedding of `crates/catsolle-keychain/src/store.rs`.

`serde_json` on a `HashMap<String, String>` is modelled by an injective
length-prefixed codec (`encodeMap`/`decodeMap`); Argon2id key derivation
and AES-256-GCM are modelled by an idealised AEAD whose ciphertext
authenticates key and nonce (`aeadEncrypt`/`aeadDecrypt`): decryption
recovers the plaintext exactly under the key derived from the same master
and salt, and fails otherwise.  The framing `MAGIC || salt || nonce || ct`
and all control flow are translated from the source.  The random salt and
nonce drawn by `encrypt` are passed as explicit arguments. -/

/-- UTF-32 code points of a string, modelling its bytes (injective). -/
def strBytes (s : String) : Bytes := s.toList.map Char.toNat

/-- Length-prefixed encoding of one string. -/
def encodeStr (s : String) : Bytes := s.toList.length :: strBytes s

/-- Decode one length-prefixed string, returning it and the remainder. -/
def decodeStr : Bytes → Option (String × Bytes)
  | [] => none
  | n :: rest =>
    if n ≤ rest.length then
      some (String.mk ((rest.take n).map Char.ofNat), rest.drop n)
    else
      none

/-- Model of `serde_json::to_vec` on the secrets map. -/
def encodeMap : List (String × String) → Bytes
  | [] => []
  | (k, v) :: rest => encodeStr k ++ (encodeStr v ++ encodeMap rest)

/-- Fuelled worker for `decodeMap`. -/
def decodeMapAux : Nat → Bytes → Option (List (String × String))
  | _, [] => some []
  | 0, _ :: _ => none
  | fuel + 1, b =>
    match decodeStr b with
    | none => none
    | some (k, r1) =>
      match decodeStr r1 with
      | none => none
      | some (v, r2) =>
        match decodeMapAux fuel r2 with
        | none => none
        | some m => some ((k, v) :: m)

/-- Model of `serde_json::from_slice` on the secrets map. -/
def decodeMap (b : Bytes) : Option (List (String × String)) :=
  decodeMapAux b.length b

/-- `SecretError` from store.rs lines 13-21. -/
inductive SecretError
  | keyring (msg : String)
  | crypto (msg : String)
  | notFound
deriving DecidableEq, Repr

/-- `derive_key(master, salt)` (store.rs lines 164-171): Argon2id modelled
as an injective combination of master and salt. -/
def derive_key (master : String) (salt : Bytes) : Bytes :=
  strBytes master ++ salt

/-- Idealised AEAD encryption (AES-256-GCM `cipher.encrypt`): the
ciphertext determines the plaintext and authenticates key and nonce. -/
def aeadEncrypt (key nonce plain : Bytes) : Bytes :=
  plain.length :: (plain ++ (key ++ nonce))

/-- Idealised AEAD decryption: succeeds exactly on an `aeadEncrypt` output
for the same key and nonce (real AES-GCM rejects a forged tag). -/
def aeadDecrypt (key nonce ct : Bytes) : Option Bytes :=
  match ct with
  | [] => none
  | n :: rest =>
    if n ≤ rest.length ∧ rest.drop n = key ++ nonce then
      some (rest.take n)
    else
      none

/-- `MAGIC = b"CATSK1"` (store.rs line 127). -/
def MAGIC : Bytes := [67, 65, 84, 83, 75, 49]

/-- `SALT_LEN` (store.rs line 128). -/
def SALT_LEN : Nat := 16

/-- `NONCE_LEN` (store.rs line 129). -/
def NONCE_LEN : Nat := 12

/-- `encrypt(master, plain)` (store.rs lines 131-147); `salt` and `nonce`
are the 16- and 12-byte strings drawn from the RNG. -/
def encrypt (salt nonce : Bytes) (master : String) (plain : Bytes) : Bytes :=
  MAGIC ++ (salt ++ (nonce ++ aeadEncrypt (derive_key master salt) nonce plain))

/-- `decrypt(master, data)` (store.rs lines 149-162): check magic and
length, slice salt/nonce/ciphertext, derive the key, decrypt. -/
def decrypt (master : String) (data : Bytes) : Except SecretError Bytes :=
  if data.length < MAGIC.length + SALT_LEN + NONCE_LEN ∨ data.take MAGIC.length ≠ MAGIC then
    .error (.crypto "invalid secret store")
  else
    let salt := (data.drop MAGIC.length).take SALT_LEN
    let nonce := (data.drop (MAGIC.length + SALT_LEN)).take NONCE_LEN
    let ct := data.drop (MAGIC.length + SALT_LEN + NONCE_LEN)
    match aeadDecrypt (derive_key master salt) nonce ct with
    | some plain => .ok plain
    | none => .error (.crypto "aead decrypt failed")

/-- Association-list view of the `HashMap<String, String>` secrets map. -/
abbrev KMap := List (String × String)

/-- `HashMap` lookup. -/
def kmLookup : KMap → String → Option String
  | [], _ => none
  | (k, v) :: rest, id => if k = id then some v else kmLookup rest id

/-- `HashMap::insert`: overwrite any existing binding. -/
def kmInsert : KMap → String → String → KMap
  | [], id, v => [(id, v)]
  | (k, w) :: rest, id, v =>
    if k = id then (id, v) :: rest else (k, w) :: kmInsert rest id v

/-- `HashMap::remove`. -/
def kmRemove : KMap → String → KMap
  | [], _ => []
  | (k, w) :: rest, id =>
    if k = id then kmRemove rest id else (k, w) :: kmRemove rest id

/-- State seen by a `KeychainManager`: the OS keyring (`none` when keyring
operations fail, which is what exercises the file fallback) and the
contents of `fallback_file` (`none` when the file does not exist). -/
structure KeychainState where
  keyring : Option KMap
  file : Option Bytes

/-- `KeychainManager::read_fallback` (store.rs lines 101-110): an absent
file is an empty map; otherwise decrypt and parse. -/
def read_fallback (master : String) (file : Option Bytes) :
    Except SecretError KMap :=
  match file with
  | none => .ok []
  | some data =>
    match decrypt master data with
    | .error e => .error e
    | .ok plain =>
      match decodeMap plain with
      | some m => .ok m
      | none => .error (.crypto "bad json")

/-- `KeychainManager::write_fallback` (store.rs lines 112-124): serialise
and encrypt with fresh salt and nonce. -/
def write_fallback (salt nonce : Bytes) (master : String) (map : KMap) : Bytes :=
  encrypt salt nonce master (encodeMap map)

/-- `read_fallback(master).unwrap_or_default()` as used by `store_secret`,
`get_secret` and `delete_secret`: any decryption or parse error is
silently replaced by the empty map. -/
def read_fallback_or_default (master : String) (file : Option Bytes) : KMap :=
  match read_fallback master file with
  | .ok m => m
  | .error _ => []

/-- `KeychainManager::store_secret` (store.rs lines 44-65).
`fallback_enabled` is the manager's flag; `salt`/`nonce` model the RNG
draw of the write path. -/
def store_secret (fallback_enabled : Bool) (salt nonce : Bytes)
    (st : KeychainState) (id secret : String) (master : Option String) :
    Except SecretError Unit × KeychainState :=
  match st.keyring with
  | some kr => (.ok (), { st with keyring := some (kmInsert kr id secret) })
  | none =>
    if fallback_enabled then
      match master with
      | none => (.error (.crypto "master password required"), st)
      | some m =>
        let map := read_fallback_or_default m st.file
        let map2 := kmInsert map id secret
        (.ok (), { st with file := some (write_fallback salt nonce m map2) })
    else
      (.error (.keyring "store failed"), st)

/-- `KeychainManager::get_secret` (store.rs lines 67-85). -/
def get_secret (fallback_enabled : Bool) (st : KeychainState) (id : String)
    (master : Option String) : Except SecretError (Option String) :=
  match (match st.keyring with
         | some kr => kmLookup kr id
         | none => none : Option String) with
  | some v => .ok (some v)
  | none =>
    if fallback_enabled then
      match master with
      | none => .error (.crypto "master password required")
      | some m => .ok (kmLookup (read_fallback_or_default m st.file) id)
    else
      .ok none

/-- `KeychainManager::delete_secret` (store.rs lines 87-99): best-effort
keyring delete, then rewrite the fallback file without the id. -/
def delete_secret (fallback_enabled : Bool) (salt nonce : Bytes)
    (st : KeychainState) (id : String) (master : Option String) :
    Except SecretError Unit × KeychainState :=
  let st1 : KeychainState :=
    match st.keyring with
    | some kr => { st with keyring := some (kmRemove kr id) }
    | none => st
  if fallback_enabled then
    match master with
    | none => (.error (.crypto "master password required"), st1)
    | some m =>
      let map := read_fallback_or_default m st1.file
      let map2 := kmRemove map id
      (.ok (), { st1 with file := some (write_fallback salt nonce m map2) })
  else
    (.ok (), st1)

/-! ## OpenSSH config import: port resolution
Embedding of the port handling of `ConnectionStore::import_from_ssh_config`
(`crates/catsolle-core/src/connection.rs` lines 343-346):
`map.get("port").and_then(|v| v.parse::<u16>().ok()).unwrap_or(22)`. -/

/-- Model of Rust `str::parse::<u16>()`: optional leading `+`, at least
one ASCII digit, value at most 65535; anything else is an error. -/
def parseU16 (s : String) : Option Nat :=
  let cs :=
    match s.toList with
    | '+' :: rest => rest
    | other => other
  if cs ≠ [] ∧ cs.all Char.isDigit then
    let v := cs.foldl (fun acc c => acc * 10 + (c.toNat - 48)) 0
    if v ≤ 65535 then some v else none
  else
    none

/-- The resolved port of one imported `Host` block (connection.rs lines
343-346); `map` is the lowercased key/value map of the block. -/
def import_port (map : KMap) : Nat :=
  ((kmLookup map "port").bind parseU16).getD 22

/-! ## Errors and events
`CoreError` from `crates/catsolle-core/src/error.rs` with its `thiserror`
`Display` strings, `SessionState` and `Event` from session.rs/events.rs. -/

/-- `CoreError` (error.rs lines 3-15). -/
inductive CoreError
  | database (msg : String)
  | io (msg : String)
  | ssh (msg : String)
  | invalid (msg : String)
  | notFound
deriving DecidableEq, Repr

/-- The `thiserror` `Display` of `CoreError` (`err.to_string()`). -/
def CoreError.render : CoreError → String
  | .database msg => "database error: " ++ msg
  | .io msg => "io error: " ++ msg
  | .ssh msg => "ssh error: " ++ msg
  | .invalid msg => "invalid data: " ++ msg
  | .notFound => "not found"

/-- `SessionState` (session.rs lines 30-36). -/
inductive SessionState
  | connecting
  | connected
  | disconnected
  | failed (reason : String)
deriving DecidableEq, Repr

/-- `TransferProgress` (transfer.rs lines 58-67). -/
structure TransferProgress where
  bytes_transferred : Nat
  bytes_total : Nat
  files_completed : Nat
  files_total : Nat
  current_file : Option String
  speed_bps : Nat
  eta_seconds : Option Nat
deriving DecidableEq, Repr

/-- `Event` (events.rs lines 5-19); session and job ids are modelled by
naturals. -/
inductive Event
  | sessionStateChanged (session_id : Nat) (state : SessionState)
  | transferProgress (job_id : Nat) (progress : TransferProgress)
  | notification (level message : String)
deriving DecidableEq, Repr

/-! ## Session manager lifecycle
Embedding of `SessionManager::connect_with_config` (session.rs lines
119-170) and `SessionManager::disconnect` (lines 180-189).  The outcome of
`SshClient::connect` is the network environment and enters as the boolean
`sshOk`; the registry is the set of live session ids. -/

/-- `connect_with_config`: emit `Connecting`; on SSH success register the
handle and emit `Connected`; on failure return the `Ssh` error having
emitted nothing further. -/
def connect_with_config (registry : List Nat) (session_id : Nat)
    (sshOk : Bool) : Except CoreError Nat × List Nat × List Event :=
  let ev0 : List Event := [.sessionStateChanged session_id .connecting]
  if sshOk then
    (.ok session_id, registry ++ [session_id],
      ev0 ++ [.sessionStateChanged session_id .connected])
  else
    (.error (.ssh "connect failed"), registry, ev0)

/-- `disconnect(id)`: if the handle is registered, remove it and emit
`Disconnected`; otherwise do nothing. -/
def disconnect (registry : List Nat) (id : Nat) : List Nat × List Event :=
  if id ∈ registry then
    (registry.erase id, [.sessionStateChanged id .disconnected])
  else
    (registry, [])

/-- The `SessionStateChanged` payloads published for session `sid` by one
driven lifecycle: `connect` from an empty registry, then optionally
`disconnect`. -/
def lifecycle_events (sshOk doDisc : Bool) (sid : Nat) : List SessionState :=
  let c := connect_with_config [] sid sshOk
  let evs := if doDisc then c.2.2 ++ (disconnect c.2.1 sid).2 else c.2.2
  evs.filterMap (fun e =>
    match e with
    | .sessionStateChanged s st => if s = sid then some st else none
    | _ => none)

/-! ## Transfer queue
Embedding of `crates/catsolle-core/src/transfer.rs`.  File systems are
maps from path to byte content; SHA-256, the remote server's persistence
behaviour, and all wall-clock-derived quantities (the 250 ms emission
gate, `speed_bps`, `eta_seconds`) are environment parameters.  The
`created_at` timestamp is dropped (wall clock). -/

/-- `TransferEndpoint` (transfer.rs lines 16-20). -/
inductive TransferEndpoint
  | local (path : String)
  | remote (session_id : Nat) (path : String)
deriving DecidableEq, Repr

/-- `TransferFile` (transfer.rs lines 22-28). -/
structure TransferFile where
  source_path : String
  dest_path : String
  size : Nat
  is_dir : Bool
deriving DecidableEq, Repr

/-- `OverwriteMode` (transfer.rs lines 40-46). -/
inductive OverwriteMode
  | ask
  | replace
  | skip
  | ifNewer
deriving DecidableEq, Repr

/-- `TransferOptions` (transfer.rs lines 30-38). -/
structure TransferOptions where
  overwrite : OverwriteMode
  preserve_permissions : Bool
  preserve_times : Bool
  verify_checksum : Bool
  resume : Bool
  buffer_size : Nat
deriving DecidableEq, Repr

/-- `TransferState` (transfer.rs lines 48-56). -/
inductive TransferState
  | queued
  | inProgress
  | paused
  | completed
  | failed (error : String)
  | cancelled
deriving DecidableEq, Repr

/-- `TransferJob` (transfer.rs lines 69-79), without `created_at`. -/
structure TransferJob where
  id : Nat
  source : TransferEndpoint
  dest : TransferEndpoint
  files : List TransferFile
  options : TransferOptions
  state : TransferState
  progress : TransferProgress
deriving DecidableEq, Repr

/-- Environment of one transfer-queue job run: the `TransferConfig`
buffer size, session registry and SFTP outcomes, initial file systems,
the remote server's persistence function, SHA-256, and the wall-clock
oracles (indexed by the `update_progress` call counter). -/
structure TransferEnv where
  bufferSize : Nat
  sessions : Nat → Bool
  openSftpOk : Nat → Bool
  openWriteOk : String → Bool
  createDirOk : String → Bool
  readBackOk : String → Bool
  localFs0 : String → Option Bytes
  remoteFs0 : String → Option Bytes
  storeEffect : String → Bytes → Bytes
  sha : Bytes → Bytes
  timeGate : Nat → Bool
  speedAt : Nat → Nat
  etaAt : Nat → Option Nat

/-- Mutable state threaded through `process_job`: the job's progress, the
`TransferProgress` payloads emitted on the bus so far, the
`update_progress` call counter, `last_bytes`, and both file systems. -/
structure RunState where
  progress : TransferProgress
  events : List TransferProgress
  k : Nat
  lastBytes : Nat
  localFs : String → Option Bytes
  remoteFs : String → Option Bytes

/-- `update_progress` (transfer.rs lines 354-393): refresh `speed_bps` and
`eta_seconds` from the clock, emit when forced, when at least 256 KiB
accumulated since the last emission, or when the 250 ms gate fires. -/
def update_progress (env : TransferEnv) (st : RunState) (force : Bool) :
    RunState :=
  let p := { st.progress with
             speed_bps := env.speedAt st.k, eta_seconds := env.etaAt st.k }
  let bytesSince := p.bytes_transferred - st.lastBytes
  let shouldEmit := force || decide (256 * 1024 ≤ bytesSince) || env.timeGate st.k
  if shouldEmit then
    { st with progress := p, k := st.k + 1, events := st.events ++ [p],
              lastBytes := p.bytes_transferred }
  else
    { st with progress := p, k := st.k + 1 }

/-- The read/write loop shared by `copy_local_to_remote` and
`copy_remote_to_local` (transfer.rs lines 235-256 and 293-314): consume
the source in chunks of `cfg.buffer_size`, add each chunk's length to
`bytes_transferred`, call `update_progress` unforced after each chunk.
Returns the final state and the bytes written (also the rolling-hash
input). A zero buffer makes the first read return 0 and the loop exit. -/
def streamChunksF (env : TransferEnv) : Nat → RunState → Bytes → RunState × Bytes
  | _, st, [] => (st, [])
  | 0, st, _ :: _ => (st, [])
  | fuel + 1, st, x :: xs =>
    if env.bufferSize = 0 then
      (st, [])
    else
      let chunk := (x :: xs).take env.bufferSize
      let st1 := { st with progress := { st.progress with
        bytes_transferred := st.progress.bytes_transferred + chunk.length } }
      let st2 := update_progress env st1 false
      let rec2 := streamChunksF env fuel st2 ((x :: xs).drop env.bufferSize)
      (rec2.1, chunk ++ rec2.2)

/-- Entry point of the loop: every iteration with a nonzero buffer
consumes at least one byte, so `remaining.length` units of fuel always
suffice. -/
def streamChunks (env : TransferEnv) (st : RunState) (remaining : Bytes) :
    RunState × Bytes :=
  streamChunksF env remaining.length st remaining

/-- `copy_local_to_remote` (transfer.rs lines 212-267). -/
def copy_local_to_remote (env : TransferEnv) (options : TransferOptions)
    (file : TransferFile) (st : RunState) : Except CoreError Unit × RunState :=
  if file.is_dir then
    if env.createDirOk file.dest_path then (.ok (), st)
    else (.error (.ssh "create_dir_all failed"), st)
  else
    match st.localFs file.source_path with
    | none => (.error (.io "open failed"), st)
    | some content =>
      if env.openWriteOk file.dest_path then
        let res := streamChunks env st content
        let written := res.2
        let old := ((res.1).remoteFs file.dest_path).getD []
        let newContent :=
          if options.overwrite = OverwriteMode.replace then written
          else written ++ old.drop written.length
        let stored := env.storeEffect file.dest_path newContent
        let st2 := { res.1 with remoteFs := fun p =>
          if p = file.dest_path then some stored else (res.1).remoteFs p }
        if options.verify_checksum then
          if env.readBackOk file.dest_path then
            if env.sha written = env.sha stored then (.ok (), st2)
            else (.error (.invalid "checksum mismatch"), st2)
          else (.error (.ssh "open_read failed"), st2)
        else (.ok (), st2)
      else (.error (.ssh "open_write failed"), st)

/-- `copy_remote_to_local` (transfer.rs lines 269-325): `File::create`
truncates, so after the loop the local destination holds exactly the
written bytes; `hash_local` reads the destination back, which in the
file-system model (local writes are exact) is `written` itself. -/
def copy_remote_to_local (env : TransferEnv) (options : TransferOptions)
    (file : TransferFile) (st : RunState) : Except CoreError Unit × RunState :=
  if file.is_dir then
    (.ok (), st)
  else
    match st.remoteFs file.source_path with
    | none => (.error (.ssh "open_read failed"), st)
    | some content =>
      let res := streamChunks env st content
      let written := res.2
      let st2 := { res.1 with localFs := fun p =>
        if p = file.dest_path then some written else (res.1).localFs p }
      if options.verify_checksum then
        let back := written
        if env.sha written = env.sha back then (.ok (), st2)
        else (.error (.invalid "checksum mismatch"), st2)
      else (.ok (), st2)

/-- `copy_local_to_local` (transfer.rs lines 327-352): host-level copy of
the whole file, then one forced progress update. -/
def copy_local_to_local (env : TransferEnv) (file : TransferFile)
    (st : RunState) : Except CoreError Unit × RunState :=
  if file.is_dir then
    (.ok (), st)
  else
    match st.localFs file.source_path with
    | none => (.error (.io "copy failed"), st)
    | some content =>
      let st1 := { st with
        progress := { st.progress with
          bytes_transferred := st.progress.bytes_transferred + content.length },
        localFs := fun p =>
          if p = file.dest_path then some content else st.localFs p }
      (.ok (), update_progress env st1 true)

/-- The dispatch `match (&job.source, &job.dest)` of `process_job`
(transfer.rs lines 148-204): resolve session and SFTP for the remote
sides, then run the directed copy. -/
def dispatch_file (env : TransferEnv) (source dest : TransferEndpoint)
    (options : TransferOptions) (file : TransferFile) (st : RunState) :
    Except CoreError Unit × RunState :=
  match source, dest with
  | .local _, .remote sid _ =>
    if env.sessions sid then
      if env.openSftpOk sid then copy_local_to_remote env options file st
      else (.error (.ssh "open_sftp failed"), st)
    else (.error (.invalid "session not found"), st)
  | .remote sid _, .local _ =>
    if env.sessions sid then
      if env.openSftpOk sid then copy_remote_to_local env options file st
      else (.error (.ssh "open_sftp failed"), st)
    else (.error (.invalid "session not found"), st)
  | .local _, .local _ => copy_local_to_local env file st
  | .remote _ _, .remote _ _ =>
    (.error (.invalid "remote to remote copy not supported"), st)

/-- The per-file loop of `process_job` (transfer.rs lines 144-207): set
`current_file`, force an emission, dispatch on the endpoint kinds,
propagate the first error, otherwise advance `files_completed` and force
an emission at the file boundary. -/
def processFiles (env : TransferEnv) (source dest : TransferEndpoint)
    (options : TransferOptions) :
    List TransferFile → RunState → Except CoreError Unit × RunState
  | [], st => (.ok (), st)
  | file :: rest, st =>
    let st1 := { st with progress := { st.progress with
      current_file := some file.source_path } }
    let st2 := update_progress env st1 true
    match dispatch_file env source dest options file st2 with
    | (.error e, st3) => (.error e, st3)
    | (.ok _, st3) =>
      let st4 := { st3 with progress := { st3.progress with
        files_completed := st3.progress.files_completed + 1 } }
      let st5 := update_progress env st4 true
      processFiles env source dest options rest st5

/-- The head of `process_job` (transfer.rs lines 135-142): compute
`bytes_total` and `files_total` and force the initial emission. -/
def init_state (env : TransferEnv) (job : TransferJob) : RunState :=
  let total := (job.files.map (fun f => f.size)).sum
  let p0 := { job.progress with
              bytes_total := total, files_total := job.files.length }
  let st0 : RunState := { progress := p0, events := [], k := 0, lastBytes := 0,
                          localFs := env.localFs0, remoteFs := env.remoteFs0 }
  update_progress env st0 true

/-- `process_job` (transfer.rs lines 129-210): compute `bytes_total` and
`files_total`, force the initial emission, then run the file loop. -/
def process_job (env : TransferEnv) (job : TransferJob) :
    Except CoreError Unit × RunState :=
  processFiles env job.source job.dest job.options job.files (init_state env job)

/-- The worker body of `TransferQueue::new` (transfer.rs lines 99-116):
run the job, set `Completed` or `Failed(err.to_string())`, then emit one
terminal progress event unconditionally.  Returns the final job state,
the final progress, and all emitted progress payloads. -/
def run_worker_job (env : TransferEnv) (job : TransferJob) :
    TransferState × TransferProgress × List TransferProgress :=
  let r := process_job env job
  let finalState : TransferState :=
    match r.1 with
    | .ok _ => .completed
    | .error e => .failed e.render
  (finalState, (r.2).progress, (r.2).events ++ [(r.2).progress])

/-! ## Transfer queue channel
`TransferQueue::enqueue` (transfer.rs lines 121-127) forwards to
`tokio::sync::mpsc::Sender::send(job).await` on the bounded channel of
capacity 32 created in `TransferQueue::new` (line 96).  tokio semantics:
`send` returns `Err(SendError)` exactly when the receiver is closed; on a
full buffer it suspends until a slot frees (the worker holds the receiver
for the process lifetime) and then succeeds.  `enqueue` maps the error to
`CoreError::Invalid(e.to_string())`, and `SendError` displays as
"channel closed". -/

/-- Channel capacity (transfer.rs line 96). -/
def MPSC_CAPACITY : Nat := 32

/-- The bounded mpsc channel feeding the worker. -/
structure MpscChannel where
  closed : Bool
  buffer : List TransferJob

/-- Result of one `enqueue` call: outcome, channel after the call, and
whether the call had to suspend awaiting free capacity. -/
structure SendOutcome where
  result : Except CoreError Unit
  chan : MpscChannel
  waited : Bool

/-- `TransferQueue::enqueue(job)` (transfer.rs lines 121-127). -/
def enqueue (chan : MpscChannel) (job : TransferJob) : SendOutcome :=
  if chan.closed then
    { result := .error (.invalid "channel closed"), chan := chan, waited := false }
  else
    { result := .ok (), chan := { chan with buffer := chan.buffer ++ [job] },
      waited := decide (MPSC_CAPACITY ≤ chan.buffer.length) }

/-- Frame of one progress-emitting step: the fields `files_completed`,
`files_total`, `bytes_total` and `current_file` are untouched,
`bytes_transferred` does not decrease, and the step appends events whose
payloads carry the entry values of the untouched fields and byte counts
between the entry and exit values, in non-decreasing order. -/
def StepFrame (st stB : RunState) : Prop :=
  stB.progress.files_completed = st.progress.files_completed ∧
  stB.progress.files_total = st.progress.files_total ∧
  stB.progress.bytes_total = st.progress.bytes_total ∧
  stB.progress.current_file = st.progress.current_file ∧
  st.progress.bytes_transferred ≤ stB.progress.bytes_transferred ∧
  ∃ new, stB.events = st.events ++ new ∧
    (∀ e ∈ new,
      e.current_file = st.progress.current_file ∧
      e.files_completed = st.progress.files_completed ∧
      e.files_total = st.progress.files_total ∧
      e.bytes_total = st.progress.bytes_total ∧
      st.progress.bytes_transferred ≤ e.bytes_transferred ∧
      e.bytes_transferred ≤ stB.progress.bytes_transferred) ∧
    (new.map (fun e => e.bytes_transferred)).Pairwise (· ≤ ·)

/-! ## Concrete sample instances used for closed evaluations. -/

/-- The all-zero progress record (`TransferProgress::default()`). -/
def zeroProgress : TransferProgress :=
  { bytes_transferred := 0, bytes_total := 0, files_completed := 0,
    files_total := 0, current_file := none, speed_bps := 0, eta_seconds := none }

/-- Sample options: `Replace` overwrite with checksum verification. -/
def sampleOptions : TransferOptions :=
  { overwrite := .replace, preserve_permissions := false,
    preserve_times := false, verify_checksum := true, resume := false,
    buffer_size := 4 }

/-- A sample queued job (used to fill the channel). -/
def sampleJob : TransferJob :=
  { id := 0, source := .local "/l", dest := .remote 1 "/r", files := [],
    options := sampleOptions, state := .queued, progress := zeroProgress }

/-- A single 3-byte regular file. -/
def sampleFile : TransferFile :=
  { source_path := "a.txt", dest_path := "b.txt", size := 3, is_dir := false }

/-- A zero-byte regular file. -/
def zeroFile : TransferFile :=
  { source_path := "z.txt", dest_path := "zz.txt", size := 0, is_dir := false }

/-- An environment whose stub SFTP server corrupts everything it stores:
whatever is written, `[9, 9, 9]` is persisted.  The hash oracle is the
identity (only equality of hashes matters). -/
def mismatchEnv : TransferEnv :=
  { bufferSize := 4, sessions := fun _ => true, openSftpOk := fun _ => true,
    openWriteOk := fun _ => true, createDirOk := fun _ => true,
    readBackOk := fun _ => true,
    localFs0 := fun p => if p = "a.txt" then some [1, 2, 3] else none,
    remoteFs0 := fun _ => none, storeEffect := fun _ _ => [9, 9, 9],
    sha := fun b => b, timeGate := fun _ => false, speedAt := fun _ => 0,
    etaAt := fun _ => none }

/-- An honest environment: the server persists exactly what is written. -/
def honestEnv : TransferEnv :=
  { bufferSize := 4, sessions := fun _ => true, openSftpOk := fun _ => true,
    openWriteOk := fun _ => true, createDirOk := fun _ => true,
    readBackOk := fun _ => true,
    localFs0 := fun p =>
      if p = "a.txt" then some [1, 2, 3]
      else if p = "z.txt" then some [] else none,
    remoteFs0 := fun _ => none, storeEffect := fun _ b => b,
    sha := fun b => b, timeGate := fun _ => false, speedAt := fun _ => 0,
    etaAt := fun _ => none }

/-- A Local→Remote job carrying the single 3-byte file. -/
def sampleL2RJob : TransferJob :=
  { id := 7, source := .local "/src", dest := .remote 1 "/dst",
    files := [sampleFile], options := sampleOptions, state := .queued,
    progress := zeroProgress }

/-- A Local→Remote job carrying the single zero-byte file. -/
def zeroByteJob : TransferJob :=
  { id := 8, source := .local "/src", dest := .remote 1 "/dst",
    files := [zeroFile], options := sampleOptions, state := .queued,
    progress := zeroProgress }

end Catsolle

namespace Catsolle

/-! # Theorems -/

/-- C7: the known-hosts glob matcher satisfies the specified concrete
decisions: `*.example.com` matches `a.example.com` but not `example.com`;
`??.example.com` matches `ab.example.com` but not `abc.example.com`; the
pattern list `!bad.example.com, *.example.com` rejects `bad.example.com`
(negation wins); and `*` matches the empty string. -/
theorem c7_glob_matcher :
    glob_match "*.example.com" "a.example.com" = true ∧
    glob_match "*.example.com" "example.com" = false ∧
    glob_match "??.example.com" "ab.example.com" = true ∧
    glob_match "??.example.com" "abc.example.com" = false ∧
    match_plain_patterns ["!bad.example.com", "*.example.com"]
      "bad.example.com" = false ∧
    glob_match "*" "" = true := by
  refine ⟨?_, ?_, ?_, ?_, ?_, ?_⟩ <;> decide

/-- C2: under `Strict` the key is accepted iff the known-hosts check
returns `Match` and the store is never modified; under `AcceptNew` it is
accepted iff the check returns `Match` or `NotFound`, and exactly in the
`NotFound` case a new entry for `(host, port, key)` is appended; a
`Mismatch` or `Revoked` result leaves the store unchanged (and refuses,
by the two iffs). -/
theorem c2_host_key_policy (hmac : Bytes → String → Bytes)
    (entries : List KHEntry) (host : String) (port : Nat) (key : Nat) :
    ((check_server_key hmac .strict (some entries) host port key).1 = true ↔
      KnownHosts.check hmac entries host port key = .Match) ∧
    ((check_server_key hmac .strict (some entries) host port key).2 =
      some entries) ∧
    ((check_server_key hmac .acceptNew (some entries) host port key).1 = true ↔
      (KnownHosts.check hmac entries host port key = .Match ∨
       KnownHosts.check hmac entries host port key = .NotFound)) ∧
    (KnownHosts.check hmac entries host port key = .NotFound →
      (check_server_key hmac .acceptNew (some entries) host port key).2 =
        some (KnownHosts.add entries host port key)) ∧
    (KnownHosts.check hmac entries host port key ≠ .NotFound →
      (check_server_key hmac .acceptNew (some entries) host port key).2 =
        some entries) := by
  cases hres : KnownHosts.check hmac entries host port key <;>
    simp [check_server_key, hres]

/-- C2 witness: on an empty store, `AcceptNew` accepts an unknown host
key and persists it; `Strict` refuses it and leaves the store empty. -/
theorem c2_host_key_policy_witness :
    (check_server_key (fun _ _ => []) .acceptNew (some []) "h" 22 1).1 = true ∧
    (check_server_key (fun _ _ => []) .acceptNew (some []) "h" 22 1).2 =
      some (KnownHosts.add [] "h" 22 1) ∧
    (check_server_key (fun _ _ => []) .strict (some []) "h" 22 1).1 = false ∧
    (check_server_key (fun _ _ => []) .strict (some []) "h" 22 1).2 = some [] := by
  have h := c2_host_key_policy (fun _ _ => []) [] "h" 22 1
  refine ⟨h.2.2.1.mpr (Or.inr rfl), h.2.2.2.1 rfl, ?_, h.2.1⟩
  have hs := h.1
  cases hval : (check_server_key (fun _ _ => []) .strict (some []) "h" 22 1).1
  · rfl
  · exact absurd (hs.mp hval) (by decide)

/-! ### Vault helper lemmas -/

theorem charList_roundtrip (l : List Char) :
    l.map (Char.ofNat ∘ Char.toNat) = l :=
  List.map_id'' (fun c => Char.ofNat_toNat c) l

theorem strBytes_length (s : String) : (strBytes s).length = s.toList.length :=
  List.length_map _ _

theorem decodeStr_encodeStr (s : String) (t : Bytes) :
    decodeStr (encodeStr s ++ t) = some (s, t) := by
  have hlen : s.toList.length = (strBytes s).length := (strBytes_length s).symm
  have h1 : (strBytes s ++ t).take s.toList.length = strBytes s := by
    rw [hlen]; exact List.take_left _ _
  have h2 : (strBytes s ++ t).drop s.toList.length = t := by
    rw [hlen]; exact List.drop_left _ _
  have hle : s.toList.length ≤ (strBytes s ++ t).length := by
    rw [hlen]; simp
  simp only [encodeStr, List.cons_append, decodeStr, if_pos hle, h1, h2]
  simp only [strBytes, List.map_map, charList_roundtrip]
  rfl

theorem decodeMapAux_succ_cons (fuel : Nat) (x : Nat) (l : Bytes) :
    decodeMapAux (fuel + 1) (x :: l) =
      match decodeStr (x :: l) with
      | none => none
      | some (k, r1) =>
        match decodeStr r1 with
        | none => none
        | some (v, r2) =>
          match decodeMapAux fuel r2 with
          | none => none
          | some m => some ((k, v) :: m) := rfl

theorem decodeMapAux_encodeMap :
    ∀ (m : KMap) (fuel : Nat), m.length ≤ fuel →
      decodeMapAux fuel (encodeMap m) = some m := by
  intro m
  induction m with
  | nil =>
    intro fuel _
    cases fuel <;> simp [encodeMap, decodeMapAux]
  | cons kv rest ih =>
    obtain ⟨k, v⟩ := kv
    intro fuel hf
    cases fuel with
    | zero => simp at hf
    | succ f =>
      have hb : encodeMap ((k, v) :: rest) =
          k.toList.length :: (strBytes k ++ (encodeStr v ++ encodeMap rest)) := by
        simp [encodeMap, encodeStr]
      have hback : k.toList.length :: (strBytes k ++ (encodeStr v ++ encodeMap rest)) =
          encodeStr k ++ (encodeStr v ++ encodeMap rest) := by
        simp [encodeStr]
      rw [hb, decodeMapAux_succ_cons, hback]
      simp only [decodeStr_encodeStr]
      rw [ih f (by simp at hf; omega)]

theorem encodeMap_length_ge (m : KMap) : m.length ≤ (encodeMap m).length := by
  induction m with
  | nil => simp [encodeMap]
  | cons kv rest ih =>
    obtain ⟨k, v⟩ := kv
    simp only [encodeMap, encodeStr, List.length_cons, List.length_append]
    simp at ih ⊢
    omega

theorem decodeMap_encodeMap (m : KMap) : decodeMap (encodeMap m) = some m :=
  decodeMapAux_encodeMap m _ (encodeMap_length_ge m)

theorem aeadDecrypt_encrypt (key nonce plain : Bytes) :
    aeadDecrypt key nonce (aeadEncrypt key nonce plain) = some plain := by
  have h1 : (plain ++ (key ++ nonce)).drop plain.length = key ++ nonce :=
    List.drop_left _ _
  have h2 : (plain ++ (key ++ nonce)).take plain.length = plain :=
    List.take_left _ _
  have hle : plain.length ≤ (plain ++ (key ++ nonce)).length := by simp
  simp [aeadEncrypt, aeadDecrypt, h1, h2, hle]

theorem decrypt_encrypt (master : String) (salt nonce plain : Bytes)
    (hs : salt.length = SALT_LEN) (hn : nonce.length = NONCE_LEN) :
    decrypt master (encrypt salt nonce master plain) = .ok plain := by
  have hM : MAGIC.length = 6 := rfl
  set key := derive_key master salt with hkey
  set ct := aeadEncrypt key nonce plain with hct
  have hdata : encrypt salt nonce master plain =
      MAGIC ++ (salt ++ (nonce ++ ct)) := rfl
  have hlen : (MAGIC ++ (salt ++ (nonce ++ ct))).length =
      34 + ct.length := by
    simp [List.length_append, hM, hs, hn, SALT_LEN, NONCE_LEN]
    omega
  have hctlen : 1 ≤ ct.length := by
    rw [hct]; simp [aeadEncrypt]
  have htake : (MAGIC ++ (salt ++ (nonce ++ ct))).take MAGIC.length = MAGIC :=
    List.take_left _ _
  have hdrop6 : (MAGIC ++ (salt ++ (nonce ++ ct))).drop MAGIC.length =
      salt ++ (nonce ++ ct) := List.drop_left _ _
  have hsalt : (salt ++ (nonce ++ ct)).take SALT_LEN = salt := by
    rw [← hs]; exact List.take_left _ _
  have hdrop22 : (MAGIC ++ (salt ++ (nonce ++ ct))).drop
      (MAGIC.length + SALT_LEN) = nonce ++ ct := by
    have : MAGIC ++ (salt ++ (nonce ++ ct)) =
        (MAGIC ++ salt) ++ (nonce ++ ct) := by simp
    rw [this, show MAGIC.length + SALT_LEN = (MAGIC ++ salt).length from by
      simp [hM, hs, SALT_LEN]]
    exact List.drop_left _ _
  have hnonce : (nonce ++ ct).take NONCE_LEN = nonce := by
    rw [← hn]; exact List.take_left _ _
  have hdrop34 : (MAGIC ++ (salt ++ (nonce ++ ct))).drop
      (MAGIC.length + SALT_LEN + NONCE_LEN) = ct := by
    have : MAGIC ++ (salt ++ (nonce ++ ct)) =
        (MAGIC ++ salt ++ nonce) ++ ct := by simp
    rw [this, show MAGIC.length + SALT_LEN + NONCE_LEN =
        (MAGIC ++ salt ++ nonce).length from by
      simp [hM, hs, hn, SALT_LEN, NONCE_LEN]]
    exact List.drop_left _ _
  have hcond : ¬((MAGIC ++ (salt ++ (nonce ++ ct))).length <
      MAGIC.length + SALT_LEN + NONCE_LEN ∨
      (MAGIC ++ (salt ++ (nonce ++ ct))).take MAGIC.length ≠ MAGIC) := by
    push_neg
    constructor
    · rw [hlen]
      simp only [hM, SALT_LEN, NONCE_LEN]
      omega
    · exact htake
  rw [hdata]
  unfold decrypt
  rw [if_neg hcond]
  simp only [hdrop6, hsalt, hdrop22, hnonce, hdrop34, ← hkey]
  rw [aeadDecrypt_encrypt]

theorem read_fallback_write (master : String) (salt nonce : Bytes) (m : KMap)
    (hs : salt.length = SALT_LEN) (hn : nonce.length = NONCE_LEN) :
    read_fallback master (some (write_fallback salt nonce master m)) = .ok m := by
  simp only [read_fallback, write_fallback]
  rw [decrypt_encrypt master salt nonce (encodeMap m) hs hn]
  simp [decodeMap_encodeMap]

theorem read_fallback_or_default_write (master : String) (salt nonce : Bytes)
    (m : KMap) (hs : salt.length = SALT_LEN) (hn : nonce.length = NONCE_LEN) :
    read_fallback_or_default master (some (write_fallback salt nonce master m)) = m := by
  unfold read_fallback_or_default
  rw [read_fallback_write master salt nonce m hs hn]

theorem kmLookup_insert_self (m : KMap) (id v : String) :
    kmLookup (kmInsert m id v) id = some v := by
  induction m with
  | nil => simp [kmInsert, kmLookup]
  | cons kv rest ih =>
    obtain ⟨k, w⟩ := kv
    by_cases h : k = id <;> simp [kmInsert, kmLookup, h, ih]

theorem kmLookup_remove_self (m : KMap) (id : String) :
    kmLookup (kmRemove m id) id = none := by
  induction m with
  | nil => simp [kmRemove, kmLookup]
  | cons kv rest ih =>
    obtain ⟨k, w⟩ := kv
    by_cases h : k = id <;> simp [kmRemove, kmLookup, h, ih]

theorem store_secret_fallback_eq (salt nonce : Bytes) (f : Option Bytes)
    (id s m : String) :
    store_secret true salt nonce ⟨none, f⟩ id s (some m) =
      (.ok (), ⟨none, some (write_fallback salt nonce m
        (kmInsert (read_fallback_or_default m f) id s))⟩) := rfl

theorem get_secret_fallback_eq (f : Option Bytes) (id m : String) :
    get_secret true ⟨none, f⟩ id (some m) =
      .ok (kmLookup (read_fallback_or_default m f) id) := rfl

theorem delete_secret_fallback_eq (salt nonce : Bytes) (f : Option Bytes)
    (id m : String) :
    delete_secret true salt nonce ⟨none, f⟩ id (some m) =
      (.ok (), ⟨none, some (write_fallback salt nonce m
        (kmRemove (read_fallback_or_default m f) id))⟩) := rfl

/-- C3: on the file-fallback path (keyring unusable, fallback enabled) and
for fresh 16-byte salts and 12-byte nonces: after `store_secret(id, s, m)`
the call succeeded and `get_secret(id, m)` returns `Some(s)`; after
`delete_secret(id, m)` it returns `None`; a second
`store_secret(id, s2, m)` overwrites so `get_secret(id, m)` returns
`Some(s2)`; and `decrypt(m, encrypt(m, p)) = Ok(p)` for every plaintext. -/
theorem c3_vault_roundtrip (file0 : Option Bytes) (id s s2 master : String)
    (salt1 nonce1 salt2 nonce2 salt3 nonce3 : Bytes)
    (hs1 : salt1.length = SALT_LEN) (hn1 : nonce1.length = NONCE_LEN)
    (hs2 : salt2.length = SALT_LEN) (hn2 : nonce2.length = NONCE_LEN)
    (hs3 : salt3.length = SALT_LEN) (hn3 : nonce3.length = NONCE_LEN) :
    (store_secret true salt1 nonce1 ⟨none, file0⟩ id s (some master)).1 =
      .ok () ∧
    get_secret true
      (store_secret true salt1 nonce1 ⟨none, file0⟩ id s (some master)).2
      id (some master) = .ok (some s) ∧
    get_secret true
      (delete_secret true salt2 nonce2
        (store_secret true salt1 nonce1 ⟨none, file0⟩ id s (some master)).2
        id (some master)).2
      id (some master) = .ok none ∧
    get_secret true
      (store_secret true salt3 nonce3
        (store_secret true salt1 nonce1 ⟨none, file0⟩ id s (some master)).2
        id s2 (some master)).2
      id (some master) = .ok (some s2) ∧
    (∀ p : Bytes, decrypt master (encrypt salt1 nonce1 master p) = .ok p) := by
  refine ⟨rfl, ?_, ?_, ?_, fun p => decrypt_encrypt master salt1 nonce1 p hs1 hn1⟩
  · rw [store_secret_fallback_eq]
    simp only [get_secret_fallback_eq,
      read_fallback_or_default_write master salt1 nonce1 _ hs1 hn1,
      kmLookup_insert_self]
  · rw [store_secret_fallback_eq]
    simp only [delete_secret_fallback_eq, get_secret_fallback_eq,
      read_fallback_or_default_write master salt1 nonce1 _ hs1 hn1,
      read_fallback_or_default_write master salt2 nonce2 _ hs2 hn2,
      kmLookup_remove_self]
  · rw [store_secret_fallback_eq]
    simp only [store_secret_fallback_eq, get_secret_fallback_eq,
      read_fallback_or_default_write master salt1 nonce1 _ hs1 hn1,
      read_fallback_or_default_write master salt3 nonce3 _ hs3 hn3,
      kmLookup_insert_self]

/-- C3 witness: a concrete round-trip through the fallback file with
master `hunter2`, secret `s3cr3t!`, all-zero salts and nonces. -/
theorem c3_vault_roundtrip_witness :
    get_secret true
      (store_secret true (List.replicate 16 0) (List.replicate 12 0)
        ⟨none, none⟩ "conn:1:password" "s3cr3t!" (some "hunter2")).2
      "conn:1:password" (some "hunter2") = .ok (some "s3cr3t!") :=
  (c3_vault_roundtrip none "conn:1:password" "s3cr3t!" "x" "hunter2"
    (List.replicate 16 0) (List.replicate 12 0)
    (List.replicate 16 0) (List.replicate 12 0)
    (List.replicate 16 0) (List.replicate 12 0)
    (by decide) (by decide) (by decide) (by decide)
    (by decide) (by decide)).2.1

/-- C4 counterexample: on a store file `[1, 2, 3]` (no magic header, so
`decrypt` fails with a `Crypto` error), `get_secret` on the fallback path
returns `Ok(None)` — not the `Crypto` error the claim requires — because
`read_fallback(master).unwrap_or_default()` swallows the error. -/
theorem c4_counterexample :
    decrypt "m" [1, 2, 3] = .error (.crypto "invalid secret store") ∧
    get_secret true ⟨none, some [1, 2, 3]⟩ "x" (some "m") = .ok none := by
  exact ⟨rfl, rfl⟩

/-- C4 (amended): whenever decrypting or parsing the existing fallback
file fails, `get_secret` swallows the error (`unwrap_or_default`) and
returns `Ok(None)` instead of the `Crypto` error. -/
theorem c4_get_swallows_crypto_error (st : KeychainState) (id master : String)
    (e : SecretError) (hkr : st.keyring = none)
    (herr : read_fallback master st.file = .error e) :
    get_secret true st id (some master) = .ok none := by
  obtain ⟨kr, f⟩ := st
  simp only at hkr
  subst hkr
  rw [get_secret_fallback_eq]
  unfold read_fallback_or_default
  simp only at herr
  rw [herr]
  rfl

/-- C4 witness: the amended statement applied at the concrete corrupt
store file `[1, 2, 3]`. -/
theorem c4_get_swallows_crypto_error_witness :
    get_secret true ⟨none, some [1, 2, 3]⟩ "y" (some "m") = .ok none :=
  c4_get_swallows_crypto_error ⟨none, some [1, 2, 3]⟩ "y" "m"
    (.crypto "invalid secret store") rfl rfl

/-- C10: when the existing fallback file cannot be decrypted with the
supplied master, `store_secret` nevertheless succeeds and rewrites the
store so that it decrypts (under that master) to a map holding only the
newly stored id — every previously stored secret is lost. -/
theorem c10_store_discards_undecryptable (st : KeychainState)
    (id s master : String) (salt nonce : Bytes) (e : SecretError)
    (hkr : st.keyring = none)
    (hs : salt.length = SALT_LEN) (hn : nonce.length = NONCE_LEN)
    (herr : read_fallback master st.file = .error e) :
    (store_secret true salt nonce st id s (some master)).1 = .ok () ∧
    ((store_secret true salt nonce st id s (some master)).2).file =
      some (write_fallback salt nonce master [(id, s)]) ∧
    read_fallback master
      ((store_secret true salt nonce st id s (some master)).2).file =
      .ok [(id, s)] := by
  obtain ⟨kr, f⟩ := st
  simp only at hkr herr
  subst hkr
  have hdef : read_fallback_or_default master f = [] := by
    unfold read_fallback_or_default
    rw [herr]
  rw [store_secret_fallback_eq]
  refine ⟨rfl, ?_, ?_⟩
  · simp only [hdef]
    rfl
  · simp only [hdef]
    exact read_fallback_write master salt nonce [(id, s)] hs hn

/-- C9 counterexample: the OpenSSH-config importer accepts port `0`
verbatim and silently replaces the out-of-range port `70000`
(unparseable as `u16`) by the default 22; neither is rejected with an
`Invalid` error. -/
theorem c9_counterexample :
    import_port [("port", "0")] = 0 ∧
    import_port [("port", "70000")] = 22 ∧
    parseU16 "70000" = none := by
  refine ⟨?_, ?_, ?_⟩ <;> decide

/-- C9 (amended): the importer's port resolution is total and lenient —
an absent or unparseable `port` value (including `0`-prefixed overflow
values above 65535) silently falls back to 22, and any value that parses
as a `u16` (including 0) is accepted verbatim. -/
theorem c9_import_port_lenient (map : KMap) (s : String) (n : Nat) :
    (kmLookup map "port" = none → import_port map = 22) ∧
    (kmLookup map "port" = some s → parseU16 s = none → import_port map = 22) ∧
    (kmLookup map "port" = some s → parseU16 s = some n → import_port map = n) := by
  refine ⟨fun h => ?_, fun h1 h2 => ?_, fun h1 h2 => ?_⟩ <;>
    simp [import_port, *]

/-- C9 witness: a parseable port is taken verbatim. -/
theorem c9_import_port_lenient_witness :
    import_port [("port", "2222")] = 2222 :=
  (c9_import_port_lenient [("port", "2222")] "2222" 2222).2.2
    (by decide) (by decide)

/-- C1 counterexample: a refused connect publishes exactly one
`Connecting` event and then nothing — no `Failed` (and no `Connected`)
event ever follows, contradicting the claimed lifecycle shape. -/
theorem c1_counterexample :
    lifecycle_events false false 0 = [SessionState.connecting] ∧
    (∀ r, SessionState.failed r ∉ lifecycle_events false false 0) ∧
    SessionState.connected ∉ lifecycle_events false false 0 := by
  refine ⟨rfl, ?_, by decide⟩
  intro r h
  rw [show lifecycle_events false false 0 = [SessionState.connecting] from rfl] at h
  simp at h

/-- C1 (amended): the exact event trace of a driven lifecycle — exactly
one `Connecting`; on success exactly one `Connected` follows (and a
`Disconnected` if and only if `disconnect` is called); on failure no
further state event is published (in particular no `Failed` event); a
`Disconnected` is always preceded by a `Connected`. -/
theorem c1_lifecycle_events (sshOk doDisc : Bool) (sid : Nat) :
    lifecycle_events sshOk doDisc sid =
      if sshOk then
        if doDisc then [.connecting, .connected, .disconnected]
        else [.connecting, .connected]
      else [.connecting] := by
  cases sshOk <;> cases doDisc <;>
    simp [lifecycle_events, connect_with_config, disconnect]

/-- C8 counterexample: on a saturated (32 jobs buffered) open channel,
`enqueue` does not fail with a queue-full error — the underlying
`Sender::send(..).await` suspends until capacity frees and then succeeds. -/
theorem c8_counterexample :
    (enqueue ⟨false, List.replicate 32 sampleJob⟩ sampleJob).result = .ok () ∧
    (enqueue ⟨false, List.replicate 32 sampleJob⟩ sampleJob).waited = true := by
  constructor
  · rfl
  · decide

/-- C8 (amended): `enqueue` fails only when the channel is closed, and
then with `CoreError::Invalid("channel closed")` (no dedicated
`QueueFull`/`QueueClosed` kinds exist); on an open channel it always
succeeds, suspending to await capacity exactly when the buffer already
holds 32 jobs. -/
theorem c8_enqueue_semantics (chan : MpscChannel) (job : TransferJob) :
    (chan.closed = true →
      (enqueue chan job).result = .error (.invalid "channel closed") ∧
      (enqueue chan job).chan = chan) ∧
    (chan.closed = false →
      (enqueue chan job).result = .ok () ∧
      (enqueue chan job).chan.buffer = chan.buffer ++ [job] ∧
      ((enqueue chan job).waited = true ↔ MPSC_CAPACITY ≤ chan.buffer.length)) := by
  obtain ⟨c, buf⟩ := chan
  cases c <;> simp [enqueue]

/-- C8 witness: a closed channel yields the mapped `Invalid` error. -/
theorem c8_enqueue_semantics_witness :
    (enqueue ⟨true, []⟩ sampleJob).result = .error (.invalid "channel closed") :=
  ((c8_enqueue_semantics ⟨true, []⟩ sampleJob).1 rfl).1

/-! ### Transfer frame lemmas -/

theorem stepFrame_refl (st : RunState) : StepFrame st st :=
  ⟨rfl, rfl, rfl, rfl, le_rfl, [], by simp, by simp, by simp⟩

theorem stepFrame_trans {a b c : RunState} (h1 : StepFrame a b)
    (h2 : StepFrame b c) : StepFrame a c := by
  obtain ⟨f1, t1, b1, c1, le1, new1, he1, hp1, hw1⟩ := h1
  obtain ⟨f2, t2, b2, c2, le2, new2, he2, hp2, hw2⟩ := h2
  refine ⟨f2.trans f1, t2.trans t1, b2.trans b1, c2.trans c1, le1.trans le2,
    new1 ++ new2, by rw [he2, he1, List.append_assoc], ?_, ?_⟩
  · intro e he
    rcases List.mem_append.mp he with h | h
    · obtain ⟨hc, hf, ht, hb, hlo, hhi⟩ := hp1 e h
      exact ⟨hc, hf, ht, hb, hlo, hhi.trans le2⟩
    · obtain ⟨hc, hf, ht, hb, hlo, hhi⟩ := hp2 e h
      exact ⟨hc.trans c1, hf.trans f1, ht.trans t1, hb.trans b1,
        le1.trans hlo, hhi⟩
  · rw [List.map_append]
    refine List.pairwise_append.mpr ⟨hw1, hw2, ?_⟩
    intro x hx y hy
    obtain ⟨ex, hex, hxv⟩ := List.mem_map.mp hx
    obtain ⟨ey, hey, hyv⟩ := List.mem_map.mp hy
    subst hxv hyv
    exact le_trans (hp1 ex hex).2.2.2.2.2 (hp2 ey hey).2.2.2.2.1

theorem update_progress_progress (env : TransferEnv) (st : RunState)
    (force : Bool) :
    (update_progress env st force).progress =
      { st.progress with speed_bps := env.speedAt st.k,
                         eta_seconds := env.etaAt st.k } := by
  unfold update_progress
  dsimp only
  split <;> rfl

theorem update_progress_frame (env : TransferEnv) (st : RunState)
    (force : Bool) : StepFrame st (update_progress env st force) := by
  unfold StepFrame update_progress
  dsimp only
  split
  · refine ⟨rfl, rfl, rfl, rfl, le_rfl,
      [{ st.progress with
         speed_bps := env.speedAt st.k, eta_seconds := env.etaAt st.k }],
      rfl, ?_, by simp⟩
    intro e he
    simp only [List.mem_singleton] at he
    subst he
    exact ⟨rfl, rfl, rfl, rfl, le_rfl, le_rfl⟩
  · exact ⟨rfl, rfl, rfl, rfl, le_rfl, [], by simp, by simp, by simp⟩

theorem update_progress_force_events (env : TransferEnv) (st : RunState) :
    (update_progress env st true).events = st.events ++
      [{ st.progress with
         speed_bps := env.speedAt st.k, eta_seconds := env.etaAt st.k }] := rfl

theorem update_progress_fs (env : TransferEnv) (st : RunState) (force : Bool) :
    (update_progress env st force).localFs = st.localFs ∧
    (update_progress env st force).remoteFs = st.remoteFs := by
  unfold update_progress
  dsimp only
  split <;> exact ⟨rfl, rfl⟩

theorem streamChunksF_frame (env : TransferEnv) :
    ∀ (fuel : Nat) (st : RunState) (rem : Bytes),
      StepFrame st (streamChunksF env fuel st rem).1 := by
  intro fuel
  induction fuel with
  | zero =>
    intro st rem
    cases rem with
    | nil => exact stepFrame_refl st
    | cons x xs => exact stepFrame_refl st
  | succ f ih =>
    intro st rem
    cases rem with
    | nil => exact stepFrame_refl st
    | cons x xs =>
      by_cases hb : env.bufferSize = 0
      · simp only [streamChunksF, if_pos hb]
        exact stepFrame_refl st
      · simp only [streamChunksF, if_neg hb]
        refine stepFrame_trans ?_
          (stepFrame_trans (update_progress_frame env _ false) (ih _ _))
        exact ⟨rfl, rfl, rfl, rfl, Nat.le_add_right _ _, [], by simp,
          by simp, by simp⟩

theorem streamChunksF_fs (env : TransferEnv) :
    ∀ (fuel : Nat) (st : RunState) (rem : Bytes),
      (streamChunksF env fuel st rem).1.localFs = st.localFs ∧
      (streamChunksF env fuel st rem).1.remoteFs = st.remoteFs := by
  intro fuel
  induction fuel with
  | zero =>
    intro st rem
    cases rem with
    | nil => exact ⟨rfl, rfl⟩
    | cons x xs => exact ⟨rfl, rfl⟩
  | succ f ih =>
    intro st rem
    cases rem with
    | nil => exact ⟨rfl, rfl⟩
    | cons x xs =>
      by_cases hb : env.bufferSize = 0
      · simp [streamChunksF, hb]
      · simp only [streamChunksF, if_neg hb]
        obtain ⟨hl, hr⟩ := ih (update_progress env _ false) ((x :: xs).drop env.bufferSize)
        obtain ⟨hl2, hr2⟩ := update_progress_fs env _ false
        exact ⟨hl.trans hl2, hr.trans hr2⟩

theorem streamChunksF_bytes_le (env : TransferEnv) :
    ∀ (fuel : Nat) (st : RunState) (rem : Bytes),
      (streamChunksF env fuel st rem).1.progress.bytes_transferred ≤
        st.progress.bytes_transferred + rem.length := by
  intro fuel
  induction fuel with
  | zero =>
    intro st rem
    cases rem with
    | nil => exact Nat.le_add_right _ _
    | cons x xs => exact Nat.le_add_right _ _
  | succ f ih =>
    intro st rem
    cases rem with
    | nil => exact Nat.le_add_right _ _
    | cons x xs =>
      by_cases hb : env.bufferSize = 0
      · simp only [streamChunksF, if_pos hb]
        exact Nat.le_add_right _ _
      · simp only [streamChunksF, if_neg hb]
        have h1 := ih (update_progress env
          { st with progress := { st.progress with
            bytes_transferred := st.progress.bytes_transferred +
              ((x :: xs).take env.bufferSize).length } } false)
          ((x :: xs).drop env.bufferSize)
        have h2 : (update_progress env
            { st with progress := { st.progress with
              bytes_transferred := st.progress.bytes_transferred +
                ((x :: xs).take env.bufferSize).length } }
            false).progress.bytes_transferred =
            st.progress.bytes_transferred +
              ((x :: xs).take env.bufferSize).length := by
          rw [update_progress_progress]
        rw [h2] at h1
        refine h1.trans ?_
        simp only [List.length_take, List.length_drop, List.length_cons]
        omega

theorem streamChunksF_exact (env : TransferEnv) (hb : 1 ≤ env.bufferSize) :
    ∀ (fuel : Nat) (rem : Bytes) (st : RunState), rem.length ≤ fuel →
      (streamChunksF env fuel st rem).1.progress.bytes_transferred =
        st.progress.bytes_transferred + rem.length ∧
      (streamChunksF env fuel st rem).2 = rem := by
  intro fuel
  induction fuel with
  | zero =>
    intro rem st h
    cases rem with
    | nil => exact ⟨by simp [streamChunksF], rfl⟩
    | cons x xs => simp at h
  | succ f ih =>
    intro rem st h
    cases rem with
    | nil => exact ⟨by simp [streamChunksF], rfl⟩
    | cons x xs =>
      have hb0 : env.bufferSize ≠ 0 := by omega
      simp only [streamChunksF, if_neg hb0]
      have hlen : ((x :: xs).drop env.bufferSize).length ≤ f := by
        simp only [List.length_drop, List.length_cons]
        simp only [List.length_cons] at h
        omega
      obtain ⟨hbytes, hwrit⟩ := ih ((x :: xs).drop env.bufferSize)
        (update_progress env
          { st with progress := { st.progress with
            bytes_transferred := st.progress.bytes_transferred +
              ((x :: xs).take env.bufferSize).length } } false) hlen
      have h2 : (update_progress env
          { st with progress := { st.progress with
            bytes_transferred := st.progress.bytes_transferred +
              ((x :: xs).take env.bufferSize).length } }
          false).progress.bytes_transferred =
          st.progress.bytes_transferred +
            ((x :: xs).take env.bufferSize).length := by
        rw [update_progress_progress]
      constructor
      · rw [hbytes, h2]
        simp only [List.length_take, List.length_drop, List.length_cons]
        omega
      · rw [hwrit]
        exact List.take_append_drop _ _

theorem copy_local_to_remote_frame (env : TransferEnv)
    (opts : TransferOptions) (file : TransferFile) (st : RunState) :
    StepFrame st (copy_local_to_remote env opts file st).2 := by
  unfold copy_local_to_remote
  split
  · split
    · exact stepFrame_refl st
    · exact stepFrame_refl st
  · split
    · exact stepFrame_refl st
    · split
      · dsimp only
        repeat' split
        all_goals exact streamChunksF_frame env _ st _
      · exact stepFrame_refl st

theorem copy_remote_to_local_frame (env : TransferEnv)
    (opts : TransferOptions) (file : TransferFile) (st : RunState) :
    StepFrame st (copy_remote_to_local env opts file st).2 := by
  unfold copy_remote_to_local
  split
  · exact stepFrame_refl st
  · split
    · exact stepFrame_refl st
    · dsimp only
      repeat' split
      all_goals exact streamChunksF_frame env _ st _

theorem copy_local_to_local_frame (env : TransferEnv) (file : TransferFile)
    (st : RunState) :
    StepFrame st (copy_local_to_local env file st).2 := by
  unfold copy_local_to_local
  split
  · exact stepFrame_refl st
  · split
    · exact stepFrame_refl st
    · refine stepFrame_trans ?_ (update_progress_frame env _ true)
      exact ⟨rfl, rfl, rfl, rfl, Nat.le_add_right _ _, [], by simp,
        by simp, by simp⟩

theorem copy_local_to_remote_localFs (env : TransferEnv)
    (opts : TransferOptions) (file : TransferFile) (st : RunState) :
    (copy_local_to_remote env opts file st).2.localFs = st.localFs := by
  unfold copy_local_to_remote
  split
  · split <;> rfl
  · split
    · rfl
    · split
      · dsimp only
        repeat' split
        all_goals exact (streamChunksF_fs env _ st _).1
      · rfl

theorem copy_remote_to_local_remoteFs (env : TransferEnv)
    (opts : TransferOptions) (file : TransferFile) (st : RunState) :
    (copy_remote_to_local env opts file st).2.remoteFs = st.remoteFs := by
  unfold copy_remote_to_local
  split
  · rfl
  · split
    · rfl
    · dsimp only
      repeat' split
      all_goals exact (streamChunksF_fs env _ st _).2

theorem copy_local_to_remote_bytes_le (env : TransferEnv)
    (opts : TransferOptions) (file : TransferFile) (st : RunState)
    (hsz : ∀ c, st.localFs file.source_path = some c → c.length ≤ file.size) :
    (copy_local_to_remote env opts file st).2.progress.bytes_transferred ≤
      st.progress.bytes_transferred + file.size := by
  unfold copy_local_to_remote
  split
  · split <;> exact Nat.le_add_right _ _
  · split
    · exact Nat.le_add_right _ _
    · rename_i content heq
      split
      · dsimp only
        repeat' split
        all_goals refine le_trans ?_ (Nat.add_le_add_left (hsz content heq) _)
        all_goals exact streamChunksF_bytes_le env content.length st content
      · exact Nat.le_add_right _ _

theorem copy_remote_to_local_bytes_le (env : TransferEnv)
    (opts : TransferOptions) (file : TransferFile) (st : RunState)
    (hsz : ∀ c, st.remoteFs file.source_path = some c → c.length ≤ file.size) :
    (copy_remote_to_local env opts file st).2.progress.bytes_transferred ≤
      st.progress.bytes_transferred + file.size := by
  unfold copy_remote_to_local
  split
  · exact Nat.le_add_right _ _
  · split
    · exact Nat.le_add_right _ _
    · rename_i content heq
      dsimp only
      repeat' split
      all_goals refine le_trans ?_ (Nat.add_le_add_left (hsz content heq) _)
      all_goals exact streamChunksF_bytes_le env content.length st content

theorem copy_local_to_remote_ok_bytes (env : TransferEnv)
    (opts : TransferOptions) (file : TransferFile) (st : RunState) (u : Unit)
    (stB : RunState) (hb : 1 ≤ env.bufferSize)
    (hdirsz : file.is_dir = true → file.size = 0)
    (hfile : file.is_dir = false →
      ∃ c, st.localFs file.source_path = some c ∧ c.length = file.size)
    (hres : copy_local_to_remote env opts file st = (.ok u, stB)) :
    stB.progress.bytes_transferred =
      st.progress.bytes_transferred + file.size := by
  unfold copy_local_to_remote at hres
  by_cases hd : file.is_dir = true
  · rw [if_pos hd] at hres
    rw [hdirsz hd]
    split at hres
    · injection hres with h1 h2
      subst h2
      rfl
    · injection hres with h1 h2
      exact Except.noConfusion h1
  · obtain ⟨c, hc, hlen⟩ := hfile (by simpa using hd)
    rw [if_neg hd, hc] at hres
    dsimp only at hres
    repeat' split at hres
    all_goals
      (injection hres with h1 h2;
       first
         | exact Except.noConfusion h1
         | (subst h2;
            rw [← hlen];
            exact (streamChunksF_exact env hb c.length c st le_rfl).1))

theorem copy_remote_to_local_ok_bytes (env : TransferEnv)
    (opts : TransferOptions) (file : TransferFile) (st : RunState) (u : Unit)
    (stB : RunState) (hb : 1 ≤ env.bufferSize)
    (hdirsz : file.is_dir = true → file.size = 0)
    (hfile : file.is_dir = false →
      ∃ c, st.remoteFs file.source_path = some c ∧ c.length = file.size)
    (hres : copy_remote_to_local env opts file st = (.ok u, stB)) :
    stB.progress.bytes_transferred =
      st.progress.bytes_transferred + file.size := by
  unfold copy_remote_to_local at hres
  by_cases hd : file.is_dir = true
  · rw [if_pos hd] at hres
    injection hres with h1 h2
    subst h2
    rw [hdirsz hd]
    simp
  · obtain ⟨c, hc, hlen⟩ := hfile (by simpa using hd)
    rw [if_neg hd, hc] at hres
    dsimp only at hres
    repeat' split at hres
    all_goals
      (injection hres with h1 h2;
       first
         | exact Except.noConfusion h1
         | (subst h2;
            rw [← hlen];
            exact (streamChunksF_exact env hb c.length c st le_rfl).1))

theorem pairwise_bytes_append (new1 new2 : List TransferProgress) (bmid : Nat)
    (h1 : (new1.map (fun e => e.bytes_transferred)).Pairwise (· ≤ ·))
    (h2 : (new2.map (fun e => e.bytes_transferred)).Pairwise (· ≤ ·))
    (hb1 : ∀ e ∈ new1, e.bytes_transferred ≤ bmid)
    (hb2 : ∀ e ∈ new2, bmid ≤ e.bytes_transferred) :
    (((new1 ++ new2).map (fun e => e.bytes_transferred))).Pairwise (· ≤ ·) := by
  rw [List.map_append]
  refine List.pairwise_append.mpr ⟨h1, h2, ?_⟩
  intro x hx y hy
  obtain ⟨ex, hex, rfl⟩ := List.mem_map.mp hx
  obtain ⟨ey, hey, rfl⟩ := List.mem_map.mp hy
  exact le_trans (hb1 ex hex) (hb2 ey hey)

theorem dispatch_file_frame (env : TransferEnv) (s d : TransferEndpoint)
    (opts : TransferOptions) (file : TransferFile) (st : RunState) :
    StepFrame st (dispatch_file env s d opts file st).2 := by
  cases s <;> cases d <;> simp only [dispatch_file]
  · exact copy_local_to_local_frame env file st
  · split
    · split
      · exact copy_local_to_remote_frame env opts file st
      · exact stepFrame_refl st
    · exact stepFrame_refl st
  · split
    · split
      · exact copy_remote_to_local_frame env opts file st
      · exact stepFrame_refl st
    · exact stepFrame_refl st
  · exact stepFrame_refl st

theorem processFiles_cons_eq (env : TransferEnv) (s d : TransferEndpoint)
    (opts : TransferOptions) (file : TransferFile) (rest : List TransferFile)
    (st : RunState) :
    processFiles env s d opts (file :: rest) st =
      match dispatch_file env s d opts file
        (update_progress env { st with progress := { st.progress with
          current_file := some file.source_path } } true) with
      | (.error e, st3) => (.error e, st3)
      | (.ok _, st3) => processFiles env s d opts rest
          (update_progress env { st3 with progress := { st3.progress with
            files_completed := st3.progress.files_completed + 1 } } true) := rfl

/-- The aggregate frame of the per-file loop: totals are preserved, bytes
and `files_completed` grow (the latter by at most the number of files),
and every appended event names one of the processed files, repeats the
totals, and carries a byte count between the entry and exit values, the
whole list non-decreasing. -/
theorem processFiles_frame (env : TransferEnv) (s d : TransferEndpoint)
    (opts : TransferOptions) :
    ∀ (fs : List TransferFile) (st : RunState),
      (processFiles env s d opts fs st).2.progress.files_total =
        st.progress.files_total ∧
      (processFiles env s d opts fs st).2.progress.bytes_total =
        st.progress.bytes_total ∧
      st.progress.bytes_transferred ≤
        (processFiles env s d opts fs st).2.progress.bytes_transferred ∧
      st.progress.files_completed ≤
        (processFiles env s d opts fs st).2.progress.files_completed ∧
      (processFiles env s d opts fs st).2.progress.files_completed ≤
        st.progress.files_completed + fs.length ∧
      ∃ new, (processFiles env s d opts fs st).2.events = st.events ++ new ∧
        (∀ e ∈ new,
          (∃ g ∈ fs, e.current_file = some g.source_path) ∧
          e.files_total = st.progress.files_total ∧
          e.bytes_total = st.progress.bytes_total ∧
          st.progress.bytes_transferred ≤ e.bytes_transferred ∧
          e.bytes_transferred ≤
            (processFiles env s d opts fs st).2.progress.bytes_transferred ∧
          st.progress.files_completed ≤ e.files_completed ∧
          e.files_completed ≤ st.progress.files_completed + fs.length) ∧
        (new.map (fun e => e.bytes_transferred)).Pairwise (· ≤ ·) := by
  intro fs
  induction fs with
  | nil =>
    intro st
    exact ⟨rfl, rfl, le_rfl, le_rfl, Nat.le_add_right _ _, [],
      by simp [processFiles], by simp, by simp⟩
  | cons file rest ih =>
    intro st
    rw [processFiles_cons_eq]
    have F23 : StepFrame
        { st with progress := { st.progress with
          current_file := some file.source_path } }
        (dispatch_file env s d opts file (update_progress env
          { st with progress := { st.progress with
            current_file := some file.source_path } } true)).2 :=
      stepFrame_trans (update_progress_frame env _ true)
        (dispatch_file_frame env s d opts file _)
    rcases hdisp : dispatch_file env s d opts file (update_progress env
        { st with progress := { st.progress with
          current_file := some file.source_path } } true) with ⟨r, st3⟩
    rw [hdisp] at F23
    obtain ⟨hfc23, hft23, hbt23, hcf23, hby23, new23, hev23, hprop23, hpw23⟩ := F23
    have e23fc : st3.progress.files_completed = st.progress.files_completed :=
      hfc23
    have e23ft : st3.progress.files_total = st.progress.files_total := hft23
    have e23bt : st3.progress.bytes_total = st.progress.bytes_total := hbt23
    have e23cf : st3.progress.current_file = some file.source_path := hcf23
    have e23by : st.progress.bytes_transferred ≤
        st3.progress.bytes_transferred := hby23
    have e23ev : st3.events = st.events ++ new23 := hev23
    cases r with
    | error e =>
      dsimp only
      refine ⟨e23ft, e23bt, e23by, le_of_eq e23fc.symm,
        le_trans (le_of_eq e23fc) (Nat.le_add_right _ _),
        new23, e23ev, ?_, hpw23⟩
      intro ev hev
      obtain ⟨hc, hf, ht, hb, hlo, hhi⟩ := hprop23 ev hev
      have hfEq : ev.files_completed = st.progress.files_completed := hf
      exact ⟨⟨file, List.mem_cons_self _ _, hc⟩, ht, hb, hlo, hhi,
        le_of_eq hfEq.symm,
        le_trans (le_of_eq hfEq) (Nat.le_add_right _ _)⟩
    | ok u =>
      dsimp only
      have F45 : StepFrame
          { st3 with progress := { st3.progress with
            files_completed := st3.progress.files_completed + 1 } }
          (update_progress env { st3 with progress := { st3.progress with
            files_completed := st3.progress.files_completed + 1 } } true) :=
        update_progress_frame env _ true
      obtain ⟨hfc45, hft45, hbt45, hcf45, hby45, new45, hev45, hprop45, hpw45⟩ := F45
      obtain ⟨ihft, ihbt, ihby, ihfclo, ihfchi, newR, ihev, ihprop, ihpw⟩ :=
        ih (update_progress env { st3 with progress := { st3.progress with
          files_completed := st3.progress.files_completed + 1 } } true)
      have e45fc : (update_progress env { st3 with progress := { st3.progress with
          files_completed := st3.progress.files_completed + 1 } }
          true).progress.files_completed =
          st3.progress.files_completed + 1 := hfc45
      have e45by : st3.progress.bytes_transferred ≤
          (update_progress env { st3 with progress := { st3.progress with
            files_completed := st3.progress.files_completed + 1 } }
            true).progress.bytes_transferred := hby45
      have e45ft : (update_progress env { st3 with progress := { st3.progress with
          files_completed := st3.progress.files_completed + 1 } }
          true).progress.files_total = st.progress.files_total :=
        hft45.trans e23ft
      have e45bt : (update_progress env { st3 with progress := { st3.progress with
          files_completed := st3.progress.files_completed + 1 } }
          true).progress.bytes_total = st.progress.bytes_total :=
        hbt45.trans e23bt
      have e45cf : (update_progress env { st3 with progress := { st3.progress with
          files_completed := st3.progress.files_completed + 1 } }
          true).progress.current_file = some file.source_path :=
        hcf45.trans e23cf
      have e45ev : (update_progress env { st3 with progress := { st3.progress with
          files_completed := st3.progress.files_completed + 1 } }
          true).events = st3.events ++ new45 := hev45
      have s1 : st.progress.files_completed ≤
          (update_progress env { st3 with progress := { st3.progress with
            files_completed := st3.progress.files_completed + 1 } }
            true).progress.files_completed := by
        rw [e45fc, e23fc]
        exact Nat.le_succ _
      have s2 : (update_progress env { st3 with progress := { st3.progress with
          files_completed := st3.progress.files_completed + 1 } }
          true).progress.files_completed + rest.length =
          st.progress.files_completed + (rest.length + 1) := by
        rw [e45fc, e23fc]
        omega
      refine ⟨ihft.trans e45ft, ihbt.trans e45bt,
        le_trans e23by (le_trans e45by ihby),
        le_trans s1 ihfclo, ?_,
        new23 ++ (new45 ++ newR), ?_, ?_, ?_⟩
      · simp only [List.length_cons]
        exact le_trans ihfchi (le_of_eq s2)
      · rw [ihev, e45ev, e23ev]
        simp [List.append_assoc]
      · intro ev hevm
        rcases List.mem_append.mp hevm with h | h
        · obtain ⟨hc, hf, ht, hb, hlo, hhi⟩ := hprop23 ev h
          have hfEq : ev.files_completed = st.progress.files_completed := hf
          exact ⟨⟨file, List.mem_cons_self _ _, hc⟩, ht, hb, hlo,
            le_trans hhi (le_trans e45by ihby), le_of_eq hfEq.symm,
            le_trans (le_of_eq hfEq) (Nat.le_add_right _ _)⟩
        rcases List.mem_append.mp h with h2 | h2
        · obtain ⟨hc, hf, ht, hb, hlo, hhi⟩ := hprop45 ev h2
          have hcEq : ev.current_file = some file.source_path := hc.trans e23cf
          have hfEq : ev.files_completed = st3.progress.files_completed + 1 := hf
          have hbLo : st3.progress.bytes_transferred ≤ ev.bytes_transferred := hlo
          refine ⟨⟨file, List.mem_cons_self _ _, hcEq⟩, ht.trans e23ft,
            hb.trans e23bt, le_trans e23by hbLo, le_trans hhi ihby, ?_, ?_⟩
          · rw [hfEq, e23fc]
            exact Nat.le_succ _
          · rw [hfEq, e23fc]
            simp only [List.length_cons]
            omega
        · obtain ⟨⟨g, hg, hc⟩, ht, hb, hlo, hhi, hflo, hfhi⟩ := ihprop ev h2
          refine ⟨⟨g, List.mem_cons_of_mem _ hg, hc⟩, ht.trans e45ft,
            hb.trans e45bt, le_trans e23by (le_trans e45by hlo), hhi,
            le_trans s1 hflo, ?_⟩
          simp only [List.length_cons]
          exact le_trans hfhi (le_of_eq s2)
      · refine pairwise_bytes_append new23 (new45 ++ newR)
          st3.progress.bytes_transferred hpw23 ?_
          (fun e he => (hprop23 e he).2.2.2.2.2) ?_
        · exact pairwise_bytes_append new45 newR
            (update_progress env { st3 with progress := { st3.progress with
              files_completed := st3.progress.files_completed + 1 } }
              true).progress.bytes_transferred hpw45 ihpw
            (fun e he => (hprop45 e he).2.2.2.2.2)
            (fun e he => (ihprop e he).2.2.2.1)
        · intro e he
          rcases List.mem_append.mp he with h | h
          · exact (hprop45 e h).2.2.2.2.1
          · exact le_trans e45by (ihprop e h).2.2.2.1

theorem processFiles_append (env : TransferEnv) (s d : TransferEndpoint)
    (opts : TransferOptions) :
    ∀ (xs ys : List TransferFile) (st : RunState),
      processFiles env s d opts (xs ++ ys) st =
        match processFiles env s d opts xs st with
        | (.ok _, stm) => processFiles env s d opts ys stm
        | (.error e, stm) => (.error e, stm) := by
  intro xs
  induction xs with
  | nil => intro ys st; rfl
  | cons file rest ih =>
    intro ys st
    rw [List.cons_append, processFiles_cons_eq, processFiles_cons_eq]
    rcases hdisp : dispatch_file env s d opts file (update_progress env
        { st with progress := { st.progress with
          current_file := some file.source_path } } true) with ⟨r, st3⟩
    cases r with
    | error e => rfl
    | ok u => exact ih ys _

theorem processFiles_ok_fc (env : TransferEnv) (s d : TransferEndpoint)
    (opts : TransferOptions) :
    ∀ (fs : List TransferFile) (st : RunState) (u : Unit) (stB : RunState),
      processFiles env s d opts fs st = (.ok u, stB) →
      stB.progress.files_completed =
        st.progress.files_completed + fs.length := by
  intro fs
  induction fs with
  | nil =>
    intro st u stB h
    simp only [processFiles] at h
    injection h with h1 h2
    subst h2
    rfl
  | cons file rest ih =>
    intro st u stB h
    rw [processFiles_cons_eq] at h
    have F23 : StepFrame
        { st with progress := { st.progress with
          current_file := some file.source_path } }
        (dispatch_file env s d opts file (update_progress env
          { st with progress := { st.progress with
            current_file := some file.source_path } } true)).2 :=
      stepFrame_trans (update_progress_frame env _ true)
        (dispatch_file_frame env s d opts file _)
    rcases hdisp : dispatch_file env s d opts file (update_progress env
        { st with progress := { st.progress with
          current_file := some file.source_path } } true) with ⟨r, st3⟩
    rw [hdisp] at F23 h
    cases r with
    | error e =>
      injection h with h1 h2
      exact Except.noConfusion h1
    | ok v =>
      have e23fc : st3.progress.files_completed = st.progress.files_completed :=
        F23.1
      have e45fc : (update_progress env { st3 with progress := { st3.progress with
          files_completed := st3.progress.files_completed + 1 } }
          true).progress.files_completed =
          st3.progress.files_completed + 1 :=
        (update_progress_frame env _ true).1
      have hre := ih _ u stB h
      rw [hre, e45fc, e23fc]
      simp only [List.length_cons]
      omega

theorem dispatch_l2r_localFs (env : TransferEnv) (lp rp : String) (sid : Nat)
    (opts : TransferOptions) (file : TransferFile) (st : RunState) :
    (dispatch_file env (.local lp) (.remote sid rp) opts file st).2.localFs =
      st.localFs := by
  simp only [dispatch_file]
  split
  · split
    · exact copy_local_to_remote_localFs env opts file st
    · rfl
  · rfl

theorem dispatch_r2l_remoteFs (env : TransferEnv) (lp rp : String) (sid : Nat)
    (opts : TransferOptions) (file : TransferFile) (st : RunState) :
    (dispatch_file env (.remote sid rp) (.local lp) opts file st).2.remoteFs =
      st.remoteFs := by
  simp only [dispatch_file]
  split
  · split
    · exact copy_remote_to_local_remoteFs env opts file st
    · rfl
  · rfl

theorem dispatch_l2r_bytes_le (env : TransferEnv) (lp rp : String) (sid : Nat)
    (opts : TransferOptions) (file : TransferFile) (st : RunState)
    (hsz : ∀ c, st.localFs file.source_path = some c → c.length ≤ file.size) :
    (dispatch_file env (.local lp) (.remote sid rp) opts file
      st).2.progress.bytes_transferred ≤
      st.progress.bytes_transferred + file.size := by
  simp only [dispatch_file]
  split
  · split
    · exact copy_local_to_remote_bytes_le env opts file st hsz
    · exact Nat.le_add_right _ _
  · exact Nat.le_add_right _ _

theorem dispatch_r2l_bytes_le (env : TransferEnv) (lp rp : String) (sid : Nat)
    (opts : TransferOptions) (file : TransferFile) (st : RunState)
    (hsz : ∀ c, st.remoteFs file.source_path = some c → c.length ≤ file.size) :
    (dispatch_file env (.remote sid rp) (.local lp) opts file
      st).2.progress.bytes_transferred ≤
      st.progress.bytes_transferred + file.size := by
  simp only [dispatch_file]
  split
  · split
    · exact copy_remote_to_local_bytes_le env opts file st hsz
    · exact Nat.le_add_right _ _
  · exact Nat.le_add_right _ _

theorem dispatch_l2r_ok_bytes (env : TransferEnv) (lp rp : String) (sid : Nat)
    (opts : TransferOptions) (file : TransferFile) (st : RunState) (u : Unit)
    (stB : RunState) (hb : 1 ≤ env.bufferSize)
    (hdirsz : file.is_dir = true → file.size = 0)
    (hfile : file.is_dir = false →
      ∃ c, st.localFs file.source_path = some c ∧ c.length = file.size)
    (hres : dispatch_file env (.local lp) (.remote sid rp) opts file st =
      (.ok u, stB)) :
    stB.progress.bytes_transferred =
      st.progress.bytes_transferred + file.size := by
  simp only [dispatch_file] at hres
  split at hres
  · split at hres
    · exact copy_local_to_remote_ok_bytes env opts file st u stB hb hdirsz
        hfile hres
    · injection hres with h1 h2
      exact Except.noConfusion h1
  · injection hres with h1 h2
    exact Except.noConfusion h1

theorem dispatch_r2l_ok_bytes (env : TransferEnv) (lp rp : String) (sid : Nat)
    (opts : TransferOptions) (file : TransferFile) (st : RunState) (u : Unit)
    (stB : RunState) (hb : 1 ≤ env.bufferSize)
    (hdirsz : file.is_dir = true → file.size = 0)
    (hfile : file.is_dir = false →
      ∃ c, st.remoteFs file.source_path = some c ∧ c.length = file.size)
    (hres : dispatch_file env (.remote sid rp) (.local lp) opts file st =
      (.ok u, stB)) :
    stB.progress.bytes_transferred =
      st.progress.bytes_transferred + file.size := by
  simp only [dispatch_file] at hres
  split at hres
  · split at hres
    · exact copy_remote_to_local_ok_bytes env opts file st u stB hb hdirsz
        hfile hres
    · injection hres with h1 h2
      exact Except.noConfusion h1
  · injection hres with h1 h2
    exact Except.noConfusion h1

theorem processFiles_l2r_localFs (env : TransferEnv) (lp rp : String)
    (sid : Nat) (opts : TransferOptions) :
    ∀ (fs : List TransferFile) (st : RunState),
      (processFiles env (.local lp) (.remote sid rp) opts fs st).2.localFs =
        st.localFs := by
  intro fs
  induction fs with
  | nil => intro st; rfl
  | cons file rest ih =>
    intro st
    rw [processFiles_cons_eq]
    rcases hdisp : dispatch_file env (.local lp) (.remote sid rp) opts file
        (update_progress env { st with progress := { st.progress with
          current_file := some file.source_path } } true) with ⟨r, st3⟩
    have hfs3 : st3.localFs = st.localFs := by
      have h1 := dispatch_l2r_localFs env lp rp sid opts file
        (update_progress env { st with progress := { st.progress with
          current_file := some file.source_path } } true)
      rw [hdisp] at h1
      exact h1.trans (update_progress_fs env _ true).1
    cases r with
    | error e => exact hfs3
    | ok u =>
      dsimp only
      exact (ih _).trans ((update_progress_fs env _ true).1.trans hfs3)

theorem processFiles_r2l_remoteFs (env : TransferEnv) (lp rp : String)
    (sid : Nat) (opts : TransferOptions) :
    ∀ (fs : List TransferFile) (st : RunState),
      (processFiles env (.remote sid rp) (.local lp) opts fs st).2.remoteFs =
        st.remoteFs := by
  intro fs
  induction fs with
  | nil => intro st; rfl
  | cons file rest ih =>
    intro st
    rw [processFiles_cons_eq]
    rcases hdisp : dispatch_file env (.remote sid rp) (.local lp) opts file
        (update_progress env { st with progress := { st.progress with
          current_file := some file.source_path } } true) with ⟨r, st3⟩
    have hfs3 : st3.remoteFs = st.remoteFs := by
      have h1 := dispatch_r2l_remoteFs env lp rp sid opts file
        (update_progress env { st with progress := { st.progress with
          current_file := some file.source_path } } true)
      rw [hdisp] at h1
      exact h1.trans (update_progress_fs env _ true).2
    cases r with
    | error e => exact hfs3
    | ok u =>
      dsimp only
      exact (ih _).trans ((update_progress_fs env _ true).2.trans hfs3)

theorem processFiles_l2r_bytes_le (env : TransferEnv) (lp rp : String)
    (sid : Nat) (opts : TransferOptions) :
    ∀ (fs : List TransferFile) (st : RunState),
      (∀ f ∈ fs, ∀ c, st.localFs f.source_path = some c →
        c.length ≤ f.size) →
      (processFiles env (.local lp) (.remote sid rp) opts fs
        st).2.progress.bytes_transferred ≤
        st.progress.bytes_transferred + (fs.map (fun f => f.size)).sum := by
  intro fs
  induction fs with
  | nil => intro st _; exact Nat.le_add_right _ _
  | cons file rest ih =>
    intro st hsz
    rw [processFiles_cons_eq]
    have hst2by : (update_progress env { st with progress := { st.progress with
        current_file := some file.source_path } }
        true).progress.bytes_transferred =
        st.progress.bytes_transferred := by
      rw [update_progress_progress]
    have hst2fs : (update_progress env { st with progress := { st.progress with
        current_file := some file.source_path } } true).localFs =
        st.localFs := (update_progress_fs env _ true).1
    rcases hdisp : dispatch_file env (.local lp) (.remote sid rp) opts file
        (update_progress env { st with progress := { st.progress with
          current_file := some file.source_path } } true) with ⟨r, st3⟩
    have hd_le : st3.progress.bytes_transferred ≤
        st.progress.bytes_transferred + file.size := by
      have h := dispatch_l2r_bytes_le env lp rp sid opts file
        (update_progress env { st with progress := { st.progress with
          current_file := some file.source_path } } true)
        (by
          intro c hc
          rw [hst2fs] at hc
          exact hsz file (List.mem_cons_self _ _) c hc)
      rw [hdisp, hst2by] at h
      exact h
    have hfs3 : st3.localFs = st.localFs := by
      have h1 := dispatch_l2r_localFs env lp rp sid opts file
        (update_progress env { st with progress := { st.progress with
          current_file := some file.source_path } } true)
      rw [hdisp] at h1
      exact h1.trans hst2fs
    cases r with
    | error e =>
      dsimp only
      refine le_trans hd_le ?_
      simp only [List.map_cons, List.sum_cons]
      omega
    | ok u =>
      dsimp only
      have h5by : (update_progress env { st3 with progress := { st3.progress with
          files_completed := st3.progress.files_completed + 1 } }
          true).progress.bytes_transferred =
          st3.progress.bytes_transferred := by
        rw [update_progress_progress]
      have h5fs : (update_progress env { st3 with progress := { st3.progress with
          files_completed := st3.progress.files_completed + 1 } }
          true).localFs = st.localFs :=
        (update_progress_fs env _ true).1.trans hfs3
      have ihh := ih (update_progress env { st3 with progress := { st3.progress with
          files_completed := st3.progress.files_completed + 1 } } true)
        (by
          intro f hf c hc
          rw [h5fs] at hc
          exact hsz f (List.mem_cons_of_mem _ hf) c hc)
      refine le_trans ihh ?_
      rw [h5by]
      simp only [List.map_cons, List.sum_cons]
      omega

theorem processFiles_r2l_bytes_le (env : TransferEnv) (lp rp : String)
    (sid : Nat) (opts : TransferOptions) :
    ∀ (fs : List TransferFile) (st : RunState),
      (∀ f ∈ fs, ∀ c, st.remoteFs f.source_path = some c →
        c.length ≤ f.size) →
      (processFiles env (.remote sid rp) (.local lp) opts fs
        st).2.progress.bytes_transferred ≤
        st.progress.bytes_transferred + (fs.map (fun f => f.size)).sum := by
  intro fs
  induction fs with
  | nil => intro st _; exact Nat.le_add_right _ _
  | cons file rest ih =>
    intro st hsz
    rw [processFiles_cons_eq]
    have hst2by : (update_progress env { st with progress := { st.progress with
        current_file := some file.source_path } }
        true).progress.bytes_transferred =
        st.progress.bytes_transferred := by
      rw [update_progress_progress]
    have hst2fs : (update_progress env { st with progress := { st.progress with
        current_file := some file.source_path } } true).remoteFs =
        st.remoteFs := (update_progress_fs env _ true).2
    rcases hdisp : dispatch_file env (.remote sid rp) (.local lp) opts file
        (update_progress env { st with progress := { st.progress with
          current_file := some file.source_path } } true) with ⟨r, st3⟩
    have hd_le : st3.progress.bytes_transferred ≤
        st.progress.bytes_transferred + file.size := by
      have h := dispatch_r2l_bytes_le env lp rp sid opts file
        (update_progress env { st with progress := { st.progress with
          current_file := some file.source_path } } true)
        (by
          intro c hc
          rw [hst2fs] at hc
          exact hsz file (List.mem_cons_self _ _) c hc)
      rw [hdisp, hst2by] at h
      exact h
    have hfs3 : st3.remoteFs = st.remoteFs := by
      have h1 := dispatch_r2l_remoteFs env lp rp sid opts file
        (update_progress env { st with progress := { st.progress with
          current_file := some file.source_path } } true)
      rw [hdisp] at h1
      exact h1.trans hst2fs
    cases r with
    | error e =>
      dsimp only
      refine le_trans hd_le ?_
      simp only [List.map_cons, List.sum_cons]
      omega
    | ok u =>
      dsimp only
      have h5by : (update_progress env { st3 with progress := { st3.progress with
          files_completed := st3.progress.files_completed + 1 } }
          true).progress.bytes_transferred =
          st3.progress.bytes_transferred := by
        rw [update_progress_progress]
      have h5fs : (update_progress env { st3 with progress := { st3.progress with
          files_completed := st3.progress.files_completed + 1 } }
          true).remoteFs = st.remoteFs :=
        (update_progress_fs env _ true).2.trans hfs3
      have ihh := ih (update_progress env { st3 with progress := { st3.progress with
          files_completed := st3.progress.files_completed + 1 } } true)
        (by
          intro f hf c hc
          rw [h5fs] at hc
          exact hsz f (List.mem_cons_of_mem _ hf) c hc)
      refine le_trans ihh ?_
      rw [h5by]
      simp only [List.map_cons, List.sum_cons]
      omega

theorem processFiles_l2r_ok_bytes (env : TransferEnv) (lp rp : String)
    (sid : Nat) (opts : TransferOptions) (hb : 1 ≤ env.bufferSize) :
    ∀ (fs : List TransferFile) (st : RunState) (u : Unit) (stB : RunState),
      (∀ f ∈ fs, (f.is_dir = true → f.size = 0) ∧
        (f.is_dir = false → ∃ c, st.localFs f.source_path = some c ∧
          c.length = f.size)) →
      processFiles env (.local lp) (.remote sid rp) opts fs st = (.ok u, stB) →
      stB.progress.bytes_transferred =
        st.progress.bytes_transferred + (fs.map (fun f => f.size)).sum := by
  intro fs
  induction fs with
  | nil =>
    intro st u stB _ h
    simp only [processFiles] at h
    injection h with h1 h2
    subst h2
    rfl
  | cons file rest ih =>
    intro st u stB hsz h
    rw [processFiles_cons_eq] at h
    have hst2by : (update_progress env { st with progress := { st.progress with
        current_file := some file.source_path } }
        true).progress.bytes_transferred =
        st.progress.bytes_transferred := by
      rw [update_progress_progress]
    have hst2fs : (update_progress env { st with progress := { st.progress with
        current_file := some file.source_path } } true).localFs =
        st.localFs := (update_progress_fs env _ true).1
    rcases hdisp : dispatch_file env (.local lp) (.remote sid rp) opts file
        (update_progress env { st with progress := { st.progress with
          current_file := some file.source_path } } true) with ⟨r, st3⟩
    rw [hdisp] at h
    cases r with
    | error e =>
      injection h with h1 h2
      exact Except.noConfusion h1
    | ok v =>
      have hd_eq : st3.progress.bytes_transferred =
          st.progress.bytes_transferred + file.size := by
        have hd := dispatch_l2r_ok_bytes env lp rp sid opts file
          (update_progress env { st with progress := { st.progress with
            current_file := some file.source_path } } true) v st3 hb
          ((hsz file (List.mem_cons_self _ _)).1)
          (by
            intro hnd
            obtain ⟨c, hc, hl⟩ := (hsz file (List.mem_cons_self _ _)).2 hnd
            exact ⟨c, by rw [hst2fs]; exact hc, hl⟩)
          hdisp
        rw [hst2by] at hd
        exact hd
      have hfs3 : st3.localFs = st.localFs := by
        have h1 := dispatch_l2r_localFs env lp rp sid opts file
          (update_progress env { st with progress := { st.progress with
            current_file := some file.source_path } } true)
        rw [hdisp] at h1
        exact h1.trans hst2fs
      have h5by : (update_progress env { st3 with progress := { st3.progress with
          files_completed := st3.progress.files_completed + 1 } }
          true).progress.bytes_transferred =
          st3.progress.bytes_transferred := by
        rw [update_progress_progress]
      have h5fs : (update_progress env { st3 with progress := { st3.progress with
          files_completed := st3.progress.files_completed + 1 } }
          true).localFs = st.localFs :=
        (update_progress_fs env _ true).1.trans hfs3
      have ihh := ih (update_progress env { st3 with progress := { st3.progress with
          files_completed := st3.progress.files_completed + 1 } } true) u stB
        (by
          intro f hf
          refine ⟨(hsz f (List.mem_cons_of_mem _ hf)).1, ?_⟩
          intro hnd
          obtain ⟨c, hc, hl⟩ := (hsz f (List.mem_cons_of_mem _ hf)).2 hnd
          exact ⟨c, by rw [h5fs]; exact hc, hl⟩)
        h
      rw [ihh, h5by, hd_eq]
      simp only [List.map_cons, List.sum_cons]
      omega

theorem processFiles_r2l_ok_bytes (env : TransferEnv) (lp rp : String)
    (sid : Nat) (opts : TransferOptions) (hb : 1 ≤ env.bufferSize) :
    ∀ (fs : List TransferFile) (st : RunState) (u : Unit) (stB : RunState),
      (∀ f ∈ fs, (f.is_dir = true → f.size = 0) ∧
        (f.is_dir = false → ∃ c, st.remoteFs f.source_path = some c ∧
          c.length = f.size)) →
      processFiles env (.remote sid rp) (.local lp) opts fs st = (.ok u, stB) →
      stB.progress.bytes_transferred =
        st.progress.bytes_transferred + (fs.map (fun f => f.size)).sum := by
  intro fs
  induction fs with
  | nil =>
    intro st u stB _ h
    simp only [processFiles] at h
    injection h with h1 h2
    subst h2
    rfl
  | cons file rest ih =>
    intro st u stB hsz h
    rw [processFiles_cons_eq] at h
    have hst2by : (update_progress env { st with progress := { st.progress with
        current_file := some file.source_path } }
        true).progress.bytes_transferred =
        st.progress.bytes_transferred := by
      rw [update_progress_progress]
    have hst2fs : (update_progress env { st with progress := { st.progress with
        current_file := some file.source_path } } true).remoteFs =
        st.remoteFs := (update_progress_fs env _ true).2
    rcases hdisp : dispatch_file env (.remote sid rp) (.local lp) opts file
        (update_progress env { st with progress := { st.progress with
          current_file := some file.source_path } } true) with ⟨r, st3⟩
    rw [hdisp] at h
    cases r with
    | error e =>
      injection h with h1 h2
      exact Except.noConfusion h1
    | ok v =>
      have hd_eq : st3.progress.bytes_transferred =
          st.progress.bytes_transferred + file.size := by
        have hd := dispatch_r2l_ok_bytes env lp rp sid opts file
          (update_progress env { st with progress := { st.progress with
            current_file := some file.source_path } } true) v st3 hb
          ((hsz file (List.mem_cons_self _ _)).1)
          (by
            intro hnd
            obtain ⟨c, hc, hl⟩ := (hsz file (List.mem_cons_self _ _)).2 hnd
            exact ⟨c, by rw [hst2fs]; exact hc, hl⟩)
          hdisp
        rw [hst2by] at hd
        exact hd
      have hfs3 : st3.remoteFs = st.remoteFs := by
        have h1 := dispatch_r2l_remoteFs env lp rp sid opts file
          (update_progress env { st with progress := { st.progress with
            current_file := some file.source_path } } true)
        rw [hdisp] at h1
        exact h1.trans hst2fs
      have h5by : (update_progress env { st3 with progress := { st3.progress with
          files_completed := st3.progress.files_completed + 1 } }
          true).progress.bytes_transferred =
          st3.progress.bytes_transferred := by
        rw [update_progress_progress]
      have h5fs : (update_progress env { st3 with progress := { st3.progress with
          files_completed := st3.progress.files_completed + 1 } }
          true).remoteFs = st.remoteFs :=
        (update_progress_fs env _ true).2.trans hfs3
      have ihh := ih (update_progress env { st3 with progress := { st3.progress with
          files_completed := st3.progress.files_completed + 1 } } true) u stB
        (by
          intro f hf
          refine ⟨(hsz f (List.mem_cons_of_mem _ hf)).1, ?_⟩
          intro hnd
          obtain ⟨c, hc, hl⟩ := (hsz f (List.mem_cons_of_mem _ hf)).2 hnd
          exact ⟨c, by rw [h5fs]; exact hc, hl⟩)
        h
      rw [ihh, h5by, hd_eq]
      simp only [List.map_cons, List.sum_cons]
      omega

theorem process_job_eq (env : TransferEnv) (job : TransferJob) :
    process_job env job = processFiles env job.source job.dest job.options
      job.files (init_state env job) := rfl

theorem run_worker_job_eq (env : TransferEnv) (job : TransferJob) :
    run_worker_job env job =
      ((match (process_job env job).1 with
        | .ok _ => TransferState.completed
        | .error e => TransferState.failed e.render),
       (process_job env job).2.progress,
       (process_job env job).2.events ++ [(process_job env job).2.progress]) :=
  rfl

/-- C5 counterexample: on a concrete Local→Remote job whose stub server
corrupts the stored bytes, the job ends `Failed` — but the reason string
is `"invalid data: checksum mismatch"` (the `Display` of
`CoreError::Invalid`), not the claimed `"checksum mismatch"`. -/
theorem c5_counterexample :
    (run_worker_job mismatchEnv sampleL2RJob).1 =
      .failed "invalid data: checksum mismatch" ∧
    (run_worker_job mismatchEnv sampleL2RJob).1 ≠
      .failed "checksum mismatch" := by
  constructor
  · rfl
  · decide

/-- C5 (amended): for a Local→Remote job with checksum verification, when
the files before `f` all succeed and `f`'s copy fails the read-back hash
comparison, the job ends in `Failed` with reason
`"invalid data: checksum mismatch"`, `files_completed` stays at the number
of files before `f`, a terminal progress event is emitted, and no file
after `f` is ever named in an emitted event. -/
theorem c5_checksum_mismatch (env : TransferEnv) (job : TransferJob)
    (lp rp : String) (sid : Nat) (done : List TransferFile)
    (f : TransferFile) (rest : List TransferFile) (st1 st2 : RunState)
    (hsrc : job.source = .local lp) (hdst : job.dest = .remote sid rp)
    (hfiles : job.files = done ++ f :: rest)
    (hfc0 : job.progress.files_completed = 0)
    (hcf0 : job.progress.current_file = none)
    (hsess : env.sessions sid = true) (hsftp : env.openSftpOk sid = true)
    (hdone : processFiles env job.source job.dest job.options done
      (init_state env job) = (.ok (), st1))
    (hfail : copy_local_to_remote env job.options f
      (update_progress env { st1 with progress := { st1.progress with
        current_file := some f.source_path } } true) =
      (.error (.invalid "checksum mismatch"), st2)) :
    (run_worker_job env job).1 = .failed "invalid data: checksum mismatch" ∧
    (run_worker_job env job).2.1.files_completed = done.length ∧
    (∃ pre, (run_worker_job env job).2.2 = pre ++ [(run_worker_job env job).2.1]) ∧
    (∀ e ∈ (run_worker_job env job).2.2,
      e.current_file = none ∨
      ∃ g ∈ done ++ [f], e.current_file = some g.source_path) := by
  have hdisp2 : dispatch_file env (.local lp) (.remote sid rp) job.options f
      (update_progress env { st1 with progress := { st1.progress with
        current_file := some f.source_path } } true) =
      copy_local_to_remote env job.options f
        (update_progress env { st1 with progress := { st1.progress with
          current_file := some f.source_path } } true) := by
    simp [dispatch_file, hsess, hsftp]
  have hpj : process_job env job = (.error (.invalid "checksum mismatch"), st2) := by
    rw [process_job_eq, hfiles, processFiles_append, hdone]
    show processFiles env job.source job.dest job.options (f :: rest) st1 =
      (.error (.invalid "checksum mismatch"), st2)
    rw [hsrc, hdst, processFiles_cons_eq, hdisp2, hfail]
  -- frame of the failing copy, relative to the state with current_file set
  have hcopyF : StepFrame { st1 with progress := { st1.progress with
      current_file := some f.source_path } } st2 := by
    have h := stepFrame_trans
      (update_progress_frame env { st1 with progress := { st1.progress with
        current_file := some f.source_path } } true)
      (copy_local_to_remote_frame env job.options f
        (update_progress env { st1 with progress := { st1.progress with
          current_file := some f.source_path } } true))
    rw [hfail] at h
    exact h
  have hfcD := processFiles_ok_fc env job.source job.dest job.options done
    (init_state env job) () st1 hdone
  have hfc1 : st1.progress.files_completed = done.length := by
    have hi : (init_state env job).progress.files_completed =
        job.progress.files_completed := rfl
    rw [hfcD, hi, hfc0]
    omega
  have hfc2 : st2.progress.files_completed = done.length := by
    have h := hcopyF.1
    rw [h]
    exact hfc1
  have FD := processFiles_frame env job.source job.dest job.options done
    (init_state env job)
  rw [hdone] at FD
  obtain ⟨-, -, -, -, -, newD, hevD, hpropD, -⟩ := FD
  have hInitEv : (init_state env job).events =
      [{ job.progress with
         bytes_total := (job.files.map (fun g => g.size)).sum,
         files_total := job.files.length,
         speed_bps := env.speedAt 0, eta_seconds := env.etaAt 0 }] := rfl
  obtain ⟨-, -, -, hcf2, -, new2, hev2, hprop2, -⟩ := hcopyF
  refine ⟨?_, ?_, ?_, ?_⟩
  · rw [run_worker_job_eq, hpj]
    rfl
  · rw [run_worker_job_eq, hpj]
    exact hfc2
  · rw [run_worker_job_eq, hpj]
    exact ⟨st2.events, rfl⟩
  · rw [run_worker_job_eq, hpj]
    intro e he
    simp only at he
    rcases List.mem_append.mp he with h | h
    · rw [hev2] at h
      rcases List.mem_append.mp h with h2 | h2
      · rw [hevD, hInitEv] at h2
        rcases List.mem_append.mp h2 with h3 | h3
        · simp only [List.mem_singleton] at h3
          subst h3
          left
          exact hcf0
        · obtain ⟨⟨g, hg, hc⟩, -⟩ := hpropD _ h3
          exact Or.inr ⟨g, List.mem_append.mpr (Or.inl hg), hc⟩
      · obtain ⟨hc, -⟩ := hprop2 _ h2
        exact Or.inr ⟨f, List.mem_append.mpr (Or.inr (List.mem_singleton.mpr rfl)), hc⟩
    · simp only [List.mem_singleton] at h
      subst h
      right
      exact ⟨f, List.mem_append.mpr (Or.inr (List.mem_singleton.mpr rfl)), hcf2⟩

/-- C5 witness: the amended statement applied to the concrete corrupting
stub run of the counterexample environment. -/
theorem c5_checksum_mismatch_witness :
    (run_worker_job mismatchEnv sampleL2RJob).1 =
      .failed "invalid data: checksum mismatch" ∧
    (run_worker_job mismatchEnv sampleL2RJob).2.1.files_completed = 0 := by
  have h := c5_checksum_mismatch mismatchEnv sampleL2RJob "/src" "/dst" 1 []
    sampleFile [] (init_state mismatchEnv sampleL2RJob)
    ((copy_local_to_remote mismatchEnv sampleL2RJob.options sampleFile
      (update_progress mismatchEnv
        { init_state mismatchEnv sampleL2RJob with
          progress := { (init_state mismatchEnv sampleL2RJob).progress with
            current_file := some sampleFile.source_path } } true)).2)
    rfl rfl rfl rfl rfl rfl rfl rfl rfl
  exact ⟨h.1, h.2.1⟩

/-- C6: across the emitted progress events of a transfer-queue job run:
`bytes_transferred` is monotonically non-decreasing (terminal event
included); for a fresh job every event satisfies
`files_completed ≤ files_total = |files|`; for an SFTP-backed job
(`Local→Remote` or `Remote→Local`) whose sources are no longer than the
declared sizes, every event satisfies
`bytes_transferred ≤ bytes_total = Σ sizes`; when such a job (with sizes
exactly matching and a nonzero buffer) ends `Completed`, the terminal
progress has `bytes_transferred = bytes_total` and
`files_completed = files_total`; and a zero-byte single-file job still
emits at least the initial and terminal events with `bytes_transferred`
staying 0 throughout. -/
theorem c6_progress_invariants (env : TransferEnv) (job : TransferJob) :
    ((((run_worker_job env job).2.2).map
      (fun e => e.bytes_transferred)).Pairwise (· ≤ ·)) ∧
    (job.progress.files_completed = 0 →
      ∀ e ∈ (run_worker_job env job).2.2,
        e.files_total = job.files.length ∧
        e.files_completed ≤ e.files_total) ∧
    (∀ lp sid rp, job.source = .local lp → job.dest = .remote sid rp →
      job.progress.bytes_transferred = 0 →
      (∀ f ∈ job.files, ∀ c, env.localFs0 f.source_path = some c →
        c.length ≤ f.size) →
      ∀ e ∈ (run_worker_job env job).2.2,
        e.bytes_total = (job.files.map (fun f => f.size)).sum ∧
        e.bytes_transferred ≤ e.bytes_total) ∧
    (∀ lp sid rp, job.source = .remote sid rp → job.dest = .local lp →
      job.progress.bytes_transferred = 0 →
      (∀ f ∈ job.files, ∀ c, env.remoteFs0 f.source_path = some c →
        c.length ≤ f.size) →
      ∀ e ∈ (run_worker_job env job).2.2,
        e.bytes_total = (job.files.map (fun f => f.size)).sum ∧
        e.bytes_transferred ≤ e.bytes_total) ∧
    (∀ lp sid rp, job.source = .local lp → job.dest = .remote sid rp →
      job.progress.bytes_transferred = 0 →
      job.progress.files_completed = 0 → 1 ≤ env.bufferSize →
      (∀ f ∈ job.files, (f.is_dir = true → f.size = 0) ∧
        (f.is_dir = false → ∃ c, env.localFs0 f.source_path = some c ∧
          c.length = f.size)) →
      (run_worker_job env job).1 = .completed →
      (run_worker_job env job).2.1.bytes_transferred =
        (job.files.map (fun f => f.size)).sum ∧
      (run_worker_job env job).2.1.files_completed = job.files.length) ∧
    (∀ lp sid rp, job.source = .remote sid rp → job.dest = .local lp →
      job.progress.bytes_transferred = 0 →
      job.progress.files_completed = 0 → 1 ≤ env.bufferSize →
      (∀ f ∈ job.files, (f.is_dir = true → f.size = 0) ∧
        (f.is_dir = false → ∃ c, env.remoteFs0 f.source_path = some c ∧
          c.length = f.size)) →
      (run_worker_job env job).1 = .completed →
      (run_worker_job env job).2.1.bytes_transferred =
        (job.files.map (fun f => f.size)).sum ∧
      (run_worker_job env job).2.1.files_completed = job.files.length) ∧
    (∀ f lp sid rp, job.files = [f] → job.source = .local lp →
      job.dest = .remote sid rp → f.size = 0 →
      env.localFs0 f.source_path = some [] →
      job.progress.bytes_transferred = 0 →
      2 ≤ (run_worker_job env job).2.2.length ∧
      ∀ e ∈ (run_worker_job env job).2.2, e.bytes_transferred = 0) := by
  obtain ⟨fft, fbt, fby, ffclo, ffchi, newA, hevA, hpropA, hpwA⟩ :=
    processFiles_frame env job.source job.dest job.options job.files
      (init_state env job)
  have hIby : (init_state env job).progress.bytes_transferred =
      job.progress.bytes_transferred := rfl
  have hIfc : (init_state env job).progress.files_completed =
      job.progress.files_completed := rfl
  have hIft : (init_state env job).progress.files_total =
      job.files.length := rfl
  have hIbt : (init_state env job).progress.bytes_total =
      (job.files.map (fun f => f.size)).sum := rfl
  have hIev : (init_state env job).events =
      [{ job.progress with
         bytes_total := (job.files.map (fun f => f.size)).sum,
         files_total := job.files.length,
         speed_bps := env.speedAt 0, eta_seconds := env.etaAt 0 }] := rfl
  have hRev : (run_worker_job env job).2.2 =
      (process_job env job).2.events ++ [(process_job env job).2.progress] :=
    rfl
  have hRpr : (run_worker_job env job).2.1 =
      (process_job env job).2.progress := rfl
  have hPev : (process_job env job).2.events =
      [{ job.progress with
         bytes_total := (job.files.map (fun f => f.size)).sum,
         files_total := job.files.length,
         speed_bps := env.speedAt 0, eta_seconds := env.etaAt 0 }] ++ newA := by
    rw [show (process_job env job).2.events =
      (processFiles env job.source job.dest job.options job.files
        (init_state env job)).2.events from rfl, hevA, hIev]
  refine ⟨?_, ?_, ?_, ?_, ?_, ?_, ?_⟩
  · -- (A) monotone
    rw [hRev, hPev]
    rw [List.append_assoc]
    refine pairwise_bytes_append _ _
      (job.progress.bytes_transferred) (by simp) ?_ ?_ ?_
    · refine pairwise_bytes_append newA _
        (process_job env job).2.progress.bytes_transferred hpwA (by simp) ?_ ?_
      · intro e he
        exact (hpropA e he).2.2.2.2.1
      · intro e he
        simp only [List.mem_singleton] at he
        subst he
        exact le_rfl
    · intro e he
      simp only [List.mem_singleton] at he
      subst he
      exact le_rfl
    · intro e he
      rcases List.mem_append.mp he with h | h
      · exact (hpropA e h).2.2.2.1
      · simp only [List.mem_singleton] at h
        subst h
        exact fby
  · -- (B) files_completed ≤ files_total
    intro hfc0 e he
    rw [hRev, hPev] at he
    rcases List.mem_append.mp he with h | h
    · rcases List.mem_append.mp h with h2 | h2
      · simp only [List.mem_singleton] at h2
        subst h2
        exact ⟨rfl, by simp [hfc0]⟩
      · obtain ⟨-, hft, -, -, -, -, hfhi⟩ := hpropA e h2
        have h1 : e.files_total = job.files.length := hft
        have h2b : e.files_completed ≤
            job.progress.files_completed + job.files.length := hfhi
        rw [h1]
        omega
    · simp only [List.mem_singleton] at h
      subst h
      have h1 : (process_job env job).2.progress.files_total =
          job.files.length := fft
      have h2b : (process_job env job).2.progress.files_completed ≤
          job.progress.files_completed + job.files.length := ffchi
      rw [h1]
      omega
  · -- (C) bytes ≤ total, Local→Remote
    intro lp sid rp hsrc hdst hby0 hsz e he
    have hXeq : process_job env job = processFiles env (.local lp)
        (.remote sid rp) job.options job.files (init_state env job) := by
      rw [process_job_eq, hsrc, hdst]
    have htot : (process_job env job).2.progress.bytes_transferred ≤
        (job.files.map (fun f => f.size)).sum := by
      rw [hXeq]
      refine le_trans (processFiles_l2r_bytes_le env lp rp sid job.options
        job.files (init_state env job) ?_) ?_
      · intro f hf c hc
        exact hsz f hf c hc
      · rw [show (init_state env job).progress.bytes_transferred =
          job.progress.bytes_transferred from rfl, hby0]
        simp
    rw [hRev, hPev] at he
    rcases List.mem_append.mp he with h | h
    · rcases List.mem_append.mp h with h2 | h2
      · simp only [List.mem_singleton] at h2
        subst h2
        exact ⟨rfl, by simp [hby0]⟩
      · obtain ⟨-, -, hbt, -, hbhi, -, -⟩ := hpropA e h2
        refine ⟨hbt.trans hIbt, ?_⟩
        rw [hbt.trans hIbt]
        exact le_trans hbhi htot
    · simp only [List.mem_singleton] at h
      subst h
      refine ⟨fbt.trans hIbt, ?_⟩
      exact le_trans htot (le_of_eq (fbt.trans hIbt).symm)
  · -- (C') bytes ≤ total, Remote→Local
    intro lp sid rp hsrc hdst hby0 hsz e he
    have hXeq : process_job env job = processFiles env (.remote sid rp)
        (.local lp) job.options job.files (init_state env job) := by
      rw [process_job_eq, hsrc, hdst]
    have htot : (process_job env job).2.progress.bytes_transferred ≤
        (job.files.map (fun f => f.size)).sum := by
      rw [hXeq]
      refine le_trans (processFiles_r2l_bytes_le env lp rp sid job.options
        job.files (init_state env job) ?_) ?_
      · intro f hf c hc
        exact hsz f hf c hc
      · rw [show (init_state env job).progress.bytes_transferred =
          job.progress.bytes_transferred from rfl, hby0]
        simp
    rw [hRev, hPev] at he
    rcases List.mem_append.mp he with h | h
    · rcases List.mem_append.mp h with h2 | h2
      · simp only [List.mem_singleton] at h2
        subst h2
        exact ⟨rfl, by simp [hby0]⟩
      · obtain ⟨-, -, hbt, -, hbhi, -, -⟩ := hpropA e h2
        refine ⟨hbt.trans hIbt, ?_⟩
        rw [hbt.trans hIbt]
        exact le_trans hbhi htot
    · simp only [List.mem_singleton] at h
      subst h
      refine ⟨fbt.trans hIbt, ?_⟩
      exact le_trans htot (le_of_eq (fbt.trans hIbt).symm)
  · -- (D) Completed equalities, Local→Remote
    intro lp sid rp hsrc hdst hby0 hfc0 hbuf hsz hcomp
    rcases hP : process_job env job with ⟨r, stB⟩
    rw [run_worker_job_eq, hP] at hcomp
    cases r with
    | error e => exact absurd hcomp (by simp)
    | ok u =>
      have hXeq : processFiles env (.local lp) (.remote sid rp) job.options
          job.files (init_state env job) = (.ok u, stB) := by
        rw [← hsrc, ← hdst, ← process_job_eq]
        exact hP
      have hby := processFiles_l2r_ok_bytes env lp rp sid job.options hbuf
        job.files (init_state env job) u stB
        (by
          intro f hf
          exact hsz f hf)
        hXeq
      have hfc := processFiles_ok_fc env job.source job.dest job.options
        job.files (init_state env job) u stB (by rw [← process_job_eq]; exact hP)
      constructor
      · rw [hRpr, hP]
        rw [hby, show (init_state env job).progress.bytes_transferred =
          job.progress.bytes_transferred from rfl, hby0]
        simp
      · rw [hRpr, hP]
        rw [hfc, show (init_state env job).progress.files_completed =
          job.progress.files_completed from rfl, hfc0]
        simp
  · -- (D') Completed equalities, Remote→Local
    intro lp sid rp hsrc hdst hby0 hfc0 hbuf hsz hcomp
    rcases hP : process_job env job with ⟨r, stB⟩
    rw [run_worker_job_eq, hP] at hcomp
    cases r with
    | error e => exact absurd hcomp (by simp)
    | ok u =>
      have hXeq : processFiles env (.remote sid rp) (.local lp) job.options
          job.files (init_state env job) = (.ok u, stB) := by
        rw [← hsrc, ← hdst, ← process_job_eq]
        exact hP
      have hby := processFiles_r2l_ok_bytes env lp rp sid job.options hbuf
        job.files (init_state env job) u stB
        (by
          intro f hf
          exact hsz f hf)
        hXeq
      have hfc := processFiles_ok_fc env job.source job.dest job.options
        job.files (init_state env job) u stB (by rw [← process_job_eq]; exact hP)
      constructor
      · rw [hRpr, hP]
        rw [hby, show (init_state env job).progress.bytes_transferred =
          job.progress.bytes_transferred from rfl, hby0]
        simp
      · rw [hRpr, hP]
        rw [hfc, show (init_state env job).progress.files_completed =
          job.progress.files_completed from rfl, hfc0]
        simp
  · -- (E) zero-byte file
    intro f lp sid rp hfe hsrc hdst hsz0 hcz hby0
    have hXeq : process_job env job = processFiles env (.local lp)
        (.remote sid rp) job.options job.files (init_state env job) := by
      rw [process_job_eq, hsrc, hdst]
    have htot : (process_job env job).2.progress.bytes_transferred ≤
        (job.files.map (fun g => g.size)).sum := by
      rw [hXeq]
      refine le_trans (processFiles_l2r_bytes_le env lp rp sid job.options
        job.files (init_state env job) ?_) ?_
      · intro g hg c hc
        rw [hfe] at hg
        simp only [List.mem_singleton] at hg
        subst hg
        rw [show (init_state env job).localFs = env.localFs0 from rfl, hcz] at hc
        injection hc with hc2
        rw [← hc2, hsz0]
        simp
      · rw [show (init_state env job).progress.bytes_transferred =
          job.progress.bytes_transferred from rfl, hby0]
        simp
    have hsum0 : (job.files.map (fun g => g.size)).sum = 0 := by
      rw [hfe]
      simp [hsz0]
    constructor
    · rw [hRev, hPev]
      simp
    · intro e he
      rw [hRev, hPev] at he
      rcases List.mem_append.mp he with h | h
      · rcases List.mem_append.mp h with h2 | h2
        · simp only [List.mem_singleton] at h2
          subst h2
          exact hby0
        · obtain ⟨-, -, -, -, hbhi, -, -⟩ := hpropA e h2
          have : e.bytes_transferred ≤ 0 := le_trans hbhi (hsum0 ▸ htot)
          omega
      · simp only [List.mem_singleton] at h
        subst h
        have : (process_job env job).2.progress.bytes_transferred ≤ 0 :=
          hsum0 ▸ htot
        omega

/-- C6 witness: on the honest environment the 3-byte Local→Remote job
completes with all bytes and files accounted for, and the zero-byte job
emits at least two events all reporting zero bytes transferred. -/
theorem c6_progress_invariants_witness :
    (run_worker_job honestEnv sampleL2RJob).2.1.bytes_transferred = 3 ∧
    (run_worker_job honestEnv sampleL2RJob).2.1.files_completed = 1 ∧
    2 ≤ (run_worker_job honestEnv zeroByteJob).2.2.length ∧
    ∀ e ∈ (run_worker_job honestEnv zeroByteJob).2.2,
      e.bytes_transferred = 0 := by
  have hD := (c6_progress_invariants honestEnv sampleL2RJob).2.2.2.2.1
    "/src" 1 "/dst" rfl rfl rfl rfl (by decide)
    (by
      intro f hf
      have hl : sampleL2RJob.files = [sampleFile] := rfl
      rw [hl] at hf
      simp only [List.mem_singleton] at hf
      subst hf
      exact ⟨fun h => absurd h (by decide),
        fun _ => ⟨[1, 2, 3], rfl, rfl⟩⟩)
    (by decide)
  have hE := (c6_progress_invariants honestEnv zeroByteJob).2.2.2.2.2.2
    zeroFile "/src" 1 "/dst" rfl rfl rfl rfl rfl rfl
  exact ⟨hD.1.trans (by decide), hD.2.trans (by decide), hE.1, hE.2⟩

/-- C10 witness: storing into a store whose file `[1, 2, 3]` is corrupt
succeeds and leaves exactly the new binding. -/
theorem c10_store_discards_undecryptable_witness :
    (store_secret true (List.replicate 16 0) (List.replicate 12 0)
      ⟨none, some [1, 2, 3]⟩ "a" "v" (some "m")).1 = .ok () ∧
    read_fallback "m"
      ((store_secret true (List.replicate 16 0) (List.replicate 12 0)
        ⟨none, some [1, 2, 3]⟩ "a" "v" (some "m")).2).file =
      .ok [("a", "v")] := by
  have h := c10_store_discards_undecryptable ⟨none, some [1, 2, 3]⟩ "a" "v" "m"
    (List.replicate 16 0) (List.replicate 12 0)
    (.crypto "invalid secret store") rfl (by decide) (by decide) rfl
  exact ⟨h.1, h.2.2⟩

end Catsolle




